import Mathlib

/-!
Verification development for the TelegramMinter repository.

The definitions below shallowly embed the Go sources:
  * `internal/service/buyer.go` — per-account worker loop, transaction ceiling,
    and the purchase cycle with its authorization-retry logic;
  * `internal/client/ton_client.go` — the per-wallet transaction queue
    (`processTransaction`, `AddTransaction`, seqno confirmation loop);
  * the client file defining `BuyStickers` / `BuyStickersAndPay` (fee padding,
    test-mode address override, token-error classification);
  * `internal/monitor/snipe_monitor.go` — the snipe monitor's known-id sets,
    filters, and poll cycle;
  * `internal/service/token_manager.go` — the token cache refresh cooldown.

Machine integers are modelled as `Nat`/`Int`; Go `int64` wrap-around is made
explicit (`wrap64`) where an overflow could matter.  External effects (HTTP
responses, chain reads, the Telegram authenticator) are inputs supplied by the
environment; each cycle consumes them in program order.
-/

namespace TelegramMinter

/-! ## String helpers

Go's `strings.Contains(s, sub)` is modelled on `List Char`.  `listIsPref p s`
decides whether `p` is a leading segment of `s`; `listHasSub p s` decides
whether `p` occurs contiguously anywhere in `s`. -/

def listIsPref : List Char → List Char → Bool
  | [], _ => true
  | _ :: _, [] => false
  | a :: as, b :: bs => a == b && listIsPref as bs

def listHasSub (pat : List Char) : List Char → Bool
  | [] => pat.isEmpty
  | c :: rest => listIsPref pat (c :: rest) || listHasSub pat rest

/-- `strContainsSub s pat` models Go `strings.Contains(s, pat)`. -/
def strContainsSub (s pat : String) : Bool :=
  listHasSub pat.toList s.toList

/-! ## Per-account worker state and the transaction ceiling

From `internal/service/buyer.go`: `AccountWorker` (lines 411–420) carries a
`transactionCount` and an `isActive` flag.  `Start` (lines 560–575) creates one
fresh `AccountWorker` per thread, each with `transactionCount = 0` and
`isActive = true`. -/

structure AccountWorkerState where
  transactionCount : Nat
  isActive : Bool
  deriving Repr, DecidableEq

def initialAccountWorker : AccountWorkerState :=
  { transactionCount := 0, isActive := true }

/-- Effect of one completed purchase cycle on the worker's counters
(`performAccountBuy`, buyer.go lines 719–736): when a transaction was sent,
the count is incremented and, if `MaxTransactions > 0` and the new count has
reached it, `isActive` is cleared.  `txSent` abstracts
`resp.Success && resp.TransactionSent && resp.TransactionResult != nil`. -/
def handleBuyOutcome (maxTransactions : Nat) (txSent : Bool)
    (w : AccountWorkerState) : AccountWorkerState :=
  if txSent then
    let currentCount := w.transactionCount + 1
    if 0 < maxTransactions ∧ maxTransactions ≤ currentCount then
      { transactionCount := currentCount, isActive := false }
    else
      { transactionCount := currentCount, isActive := w.isActive }
  else w

/-- The worker loop (`accountWorker`, buyer.go lines 595–620): before each
cycle the worker re-checks its own `isActive`; if cleared it returns without
any further purchase attempt, otherwise it performs one cycle.  The list holds
the per-cycle outcomes the environment would produce; the second component
counts purchase attempts actually performed. -/
def runWorker (maxTransactions : Nat) (w : AccountWorkerState) :
    List Bool → AccountWorkerState × Nat
  | [] => (w, 0)
  | o :: rest =>
    if w.isActive then
      let r := runWorker maxTransactions (handleBuyOutcome maxTransactions o w) rest
      (r.1, r.2 + 1)
    else (w, 0)

/-- `Start` (buyer.go lines 560–575) gives each of the account's threads its
own freshly initialised `AccountWorker`; each worker then runs on its own
outcome sequence, touching no shared per-account counter. -/
def accountRun (maxTransactions : Nat) (outcomeLists : List (List Bool)) :
    List (AccountWorkerState × Nat) :=
  outcomeLists.map (runWorker maxTransactions initialAccountWorker)

/-- Total number of successful on-chain payments recorded across the
account's workers. -/
def accountTotalSent (run : List (AccountWorkerState × Nat)) : Nat :=
  (run.map fun p => p.1.transactionCount).sum

/-! ## Purchase responses and the authorization-retry cycle

`BuyStickers` (client, lines 107–190) classifies a response: `Success` is
`200 ≤ status < 300`; `IsTokenError` is status 401 or 403, or a body carrying
a structured invalid-token marker. -/

structure BuyResp where
  statusCode : Nat
  /-- body contains invalid_auth_token / unauthorized, or JSON-decodes with
  `ok = false` and `errorCode = invalid_auth_token`. -/
  bodyTokenError : Bool
  /-- `resp.TransactionSent && resp.TransactionResult != nil` -/
  transactionSent : Bool
  deriving Repr, DecidableEq

def BuyResp.success (r : BuyResp) : Bool :=
  decide (200 ≤ r.statusCode) && decide (r.statusCode < 300)

def BuyResp.isTokenError (r : BuyResp) : Bool :=
  r.statusCode == 401 || r.statusCode == 403 || r.bodyTokenError

/-- Observable trace of one `performAccountBuy` cycle: how many order requests
and forced token refreshes it performed, and the statistics deltas. -/
structure CycleTrace where
  orderCalls : Nat
  refreshCalls : Nat
  failedInc : Nat
  invalidTokenInc : Nat
  successInc : Nat
  sentInc : Nat
  deriving Repr, DecidableEq

/-- Final part of `performAccountBuy` (buyer.go lines 706–769): after all
retries, a non-success response counts one failure; a success counts one
success and, if a transaction was sent, updates the worker's counters. -/
def finalStage (r : BuyResp) (orderCalls refreshCalls failedSoFar invalidSoFar : Nat)
    (maxTransactions : Nat) (w : AccountWorkerState) : CycleTrace × AccountWorkerState :=
  if r.success = false then
    ({ orderCalls := orderCalls, refreshCalls := refreshCalls,
       failedInc := failedSoFar + 1, invalidTokenInc := invalidSoFar,
       successInc := 0, sentInc := 0 }, w)
  else if r.transactionSent then
    ({ orderCalls := orderCalls, refreshCalls := refreshCalls,
       failedInc := failedSoFar, invalidTokenInc := invalidSoFar,
       successInc := 1, sentInc := 1 }, handleBuyOutcome maxTransactions true w)
  else
    ({ orderCalls := orderCalls, refreshCalls := refreshCalls,
       failedInc := failedSoFar, invalidTokenInc := invalidSoFar,
       successInc := 1, sentInc := 0 }, w)

/-- The `resp.IsTokenError` branch of `performAccountBuy` (buyer.go lines
679–704): a token-error response counts one failure and one invalid token,
then forces a refresh and retries once more; refresh or retry transport
errors end the cycle.  `rs` are the remaining order-call results (`none` is a
transport error), `refreshes` the remaining refresh results. -/
def tokenErrorStage (r : BuyResp) (rs : List (Option BuyResp)) (refreshes : List Bool)
    (orderCalls refreshCalls : Nat) (maxTransactions : Nat) (w : AccountWorkerState) :
    CycleTrace × AccountWorkerState :=
  if r.isTokenError then
    match refreshes with
    | [] =>
      ({ orderCalls := orderCalls, refreshCalls := refreshCalls + 1,
         failedInc := 1, invalidTokenInc := 1, successInc := 0, sentInc := 0 }, w)
    | false :: _ =>
      ({ orderCalls := orderCalls, refreshCalls := refreshCalls + 1,
         failedInc := 1, invalidTokenInc := 1, successInc := 0, sentInc := 0 }, w)
    | true :: _ =>
      match rs with
      | [] =>
        ({ orderCalls := orderCalls + 1, refreshCalls := refreshCalls + 1,
           failedInc := 1, invalidTokenInc := 1, successInc := 0, sentInc := 0 }, w)
      | none :: _ =>
        ({ orderCalls := orderCalls + 1, refreshCalls := refreshCalls + 1,
           failedInc := 1, invalidTokenInc := 1, successInc := 0, sentInc := 0 }, w)
      | some r2 :: _ =>
        finalStage r2 (orderCalls + 1) (refreshCalls + 1) 1 1 maxTransactions w
  else
    finalStage r orderCalls refreshCalls 0 0 maxTransactions w

/-- One `performAccountBuy` cycle (buyer.go lines 623–769).  `tokenOk` is
whether `GetValidToken` succeeded; `rs` lists the order-call results in the
order the cycle would perform them (`none` = transport error); `refreshes`
lists the `RefreshTokenOnError` results.  The 401/403 branch (lines 647–673)
refreshes and retries once, then control falls through to the token-error
branch on the (possibly retried) response. -/
def performAccountBuyCycle (tokenOk : Bool) (rs : List (Option BuyResp))
    (refreshes : List Bool) (maxTransactions : Nat) (w : AccountWorkerState) :
    CycleTrace × AccountWorkerState :=
  if tokenOk = false then
    ({ orderCalls := 0, refreshCalls := 0, failedInc := 1, invalidTokenInc := 0,
       successInc := 0, sentInc := 0 }, w)
  else
    match rs with
    | [] =>
      ({ orderCalls := 1, refreshCalls := 0, failedInc := 1, invalidTokenInc := 0,
         successInc := 0, sentInc := 0 }, w)
    | none :: _ =>
      ({ orderCalls := 1, refreshCalls := 0, failedInc := 1, invalidTokenInc := 0,
         successInc := 0, sentInc := 0 }, w)
    | some r1 :: rs1 =>
      if r1.statusCode == 401 || r1.statusCode == 403 then
        match refreshes with
        | [] =>
          ({ orderCalls := 1, refreshCalls := 1, failedInc := 1, invalidTokenInc := 0,
             successInc := 0, sentInc := 0 }, w)
        | false :: _ =>
          ({ orderCalls := 1, refreshCalls := 1, failedInc := 1, invalidTokenInc := 0,
             successInc := 0, sentInc := 0 }, w)
        | true :: refreshes1 =>
          match rs1 with
          | [] =>
            ({ orderCalls := 2, refreshCalls := 1, failedInc := 1, invalidTokenInc := 0,
               successInc := 0, sentInc := 0 }, w)
          | none :: _ =>
            ({ orderCalls := 2, refreshCalls := 1, failedInc := 1, invalidTokenInc := 0,
               successInc := 0, sentInc := 0 }, w)
          | some r2 :: rs2 =>
            tokenErrorStage r2 rs2 refreshes1 2 1 maxTransactions w
      else
        tokenErrorStage r1 rs1 refreshes 1 0 maxTransactions w

/-! ## The per-wallet transaction queue (`internal/client/ton_client.go`)

`TransactionRequest` / `TransactionResult` keep the Go field names.  Amounts
are Go `int64`; `wrap64` makes the wrap-around explicit. -/

def wrap64 (x : Int) : Int :=
  (x + 2 ^ 63) % 2 ^ 64 - 2 ^ 63

structure TransactionRequest where
  ToAddress : String
  Amount : Int
  Comment : String
  TestMode : Bool
  TestAddress : String
  deriving Repr, DecidableEq

structure TransactionResult where
  FromAddress : String
  ToAddress : String
  TransactionID : String
  Amount : Int
  Comment : String
  Success : Bool
  deriving Repr, DecidableEq

/-- The failure results built throughout `processTransaction` and
`AddTransaction`: empty transaction id, `Success = false`, attempted
addresses/amount/comment preserved. -/
def failResult (walletAddress toAddress : String) (amount : Int) (comment : String) :
    TransactionResult :=
  { FromAddress := walletAddress, ToAddress := toAddress, TransactionID := "",
    Amount := amount, Comment := comment, Success := false }

/-- Chain-side inputs one `processTransaction` run consumes: whether the
destination parses, the first `getSeqno` read, whether `wallet.Transfer`
returns without error, the 60 in-loop `getSeqno` reads (`none` = read error),
and the clock value used in the synthetic transaction id. -/
structure ChainEnv where
  walletAddress : String
  parseOk : String → Bool
  initialSeqno : Option Nat
  transferOk : Bool
  polls : List (Option Nat)
  txTime : Nat

/-- The confirmation loop of `processTransaction` (ton_client.go lines
146–159): up to `fuel` (= 60) one-second polls; a read error just continues;
the loop stops confirmed as soon as a read reaches `expected`. -/
def waitSeqno (expected : Nat) : Nat → List (Option Nat) → Bool
  | 0, _ => false
  | _ + 1, [] => false
  | fuel + 1, p :: rest =>
    match p with
    | none => waitSeqno expected fuel rest
    | some s => if expected ≤ s then true else waitSeqno expected fuel rest

/-- What one `processTransaction` run did: the returned result, whether
`wallet.Transfer` was invoked and returned without error, and the
destination/amount actually handed to it. -/
structure ProcessOutcome where
  result : TransactionResult
  transferAttempted : Bool
  transferOk : Bool
  destination : String
  sentAmount : Int

/-- `processTransaction` (ton_client.go lines 83–183): apply the test-mode
address override, parse the destination, read the initial seqno, broadcast,
then wait for the seqno to reach `initial + 1` within 60 polls; only a
confirmed advance yields `Success = true`. -/
def processTransaction (env : ChainEnv) (req : TransactionRequest) : ProcessOutcome :=
  let toAddress :=
    if req.TestMode ∧ req.TestAddress ≠ "" then req.TestAddress else req.ToAddress
  if env.parseOk toAddress = false then
    { result := failResult env.walletAddress toAddress req.Amount req.Comment,
      transferAttempted := false, transferOk := false,
      destination := toAddress, sentAmount := req.Amount }
  else
    match env.initialSeqno with
    | none =>
      { result := failResult env.walletAddress toAddress req.Amount req.Comment,
        transferAttempted := false, transferOk := false,
        destination := toAddress, sentAmount := req.Amount }
    | some initialSeqno =>
      if env.transferOk = false then
        { result := failResult env.walletAddress toAddress req.Amount req.Comment,
          transferAttempted := true, transferOk := false,
          destination := toAddress, sentAmount := req.Amount }
      else
        let expectedSeqno := initialSeqno + 1
        let confirmed := waitSeqno expectedSeqno 60 env.polls
        if confirmed = false then
          { result := failResult env.walletAddress toAddress req.Amount req.Comment,
            transferAttempted := true, transferOk := true,
            destination := toAddress, sentAmount := req.Amount }
        else
          { result :=
              { FromAddress := env.walletAddress, ToAddress := toAddress,
                TransactionID :=
                  "tx_" ++ toString req.Amount ++ "_" ++ req.Comment ++ "_" ++
                    env.walletAddress ++ "_" ++ toString env.txTime,
                Amount := req.Amount, Comment := req.Comment, Success := true },
            transferAttempted := true, transferOk := true,
            destination := toAddress, sentAmount := req.Amount }

/-- `processQueue` (ton_client.go lines 70–80): the single queue worker takes
buffered requests one at a time, in order, and produces one result per
request.  `envAt i` is the chain state seen by the `i`-th processed request. -/
def processQueueRun (envAt : Nat → ChainEnv) (i : Nat) :
    List TransactionRequest → List TransactionResult
  | [] => []
  | req :: rest => (processTransaction (envAt i) req).result :: processQueueRun envAt (i + 1) rest

/-- `AddTransaction` (ton_client.go lines 311–340): the request either enters
the queue (select on `tq.queue <- req`), in which case the caller blocks on
its private result channel until the worker processes the request and always
receives that result; or the 5-second submission timeout fires and a failure
result is returned immediately.  `buffered` are the requests already ahead in
the queue, `accepted` whether the send won the select. -/
def addTransaction (walletAddress : String) (buffered : List TransactionRequest)
    (accepted : Bool) (envAt : Nat → ChainEnv) (toAddress : String) (amount : Int)
    (comment : String) (testMode : Bool) (testAddress : String) : TransactionResult :=
  let req : TransactionRequest :=
    { ToAddress := toAddress, Amount := amount, Comment := comment,
      TestMode := testMode, TestAddress := testAddress }
  if accepted then
    (processQueueRun envAt 0 (buffered ++ [req])).getD buffered.length
      (failResult walletAddress toAddress amount comment)
  else
    failResult walletAddress toAddress amount comment

/-! ## `BuyStickersAndPay` (client, lines 193–237) -/

/-- The parsed fields of a successful `BuyStickers` response
(client, lines 171–187). -/
structure ParsedBuyResp where
  Success : Bool
  OrderID : String
  TotalAmount : Int
  Wallet : String
  deriving Repr, DecidableEq

/-- The payment `BuyStickersAndPay` submits for a purchase response: nothing
when the purchase failed or carries no order id; otherwise a transfer of
`TotalAmount + 250000000` (the fixed 0.25-TON fee buffer, line 215) to the
API-provided wallet, or to the test address when test mode is on with a
non-empty test address (lines 217–220). -/
def submittedPayment (resp : ParsedBuyResp) (testMode : Bool) (testAddress : String) :
    Option TransactionRequest :=
  if resp.Success = false ∨ resp.OrderID = "" then none
  else
    let amountWithFee := wrap64 (resp.TotalAmount + 250000000)
    let targetWallet :=
      if testMode ∧ testAddress ≠ "" then testAddress else resp.Wallet
    some { ToAddress := targetWallet, Amount := amountWithFee, Comment := resp.OrderID,
           TestMode := testMode, TestAddress := testAddress }

/-! ## The snipe monitor (`internal/monitor/snipe_monitor.go`)

A catalog snapshot is the data one poll cycle observes: the collection list
together with, for each collection, the character list its detail fetch
returns (`types.go`: `Collection`, `Character`). -/

structure Character where
  id : Nat
  name : String
  price : Int
  supply : Int
  deriving Repr, DecidableEq

structure Collection where
  id : Nat
  title : String
  characters : List Character
  deriving Repr, DecidableEq

structure RangeFilter where
  min : Int
  max : Int
  deriving Repr, DecidableEq

/-- The `snipe_monitor` part of an account's configuration. -/
structure SnipeFilter where
  wordFilter : List String
  supplyRange : Option RangeFilter
  priceRange : Option RangeFilter
  deriving Repr, DecidableEq

/-- `PurchaseRequest` (snipe_monitor.go lines 16–22), the purchase intent
handed to the purchase callback. -/
structure PurchaseRequest where
  CollectionID : Nat
  CharacterID : Nat
  Price : Int
  Supply : Int
  Name : String
  deriving Repr, DecidableEq

/-- The monitor's known-id state (snipe_monitor.go lines 43–44):
`knownCollections` and `knownCharacters` keyed by `(collectionID, characterID)`. -/
structure MonitorState where
  knownCollections : List Nat
  knownCharacters : List (Nat × Nat)
  deriving Repr, DecidableEq

def emptyMonitorState : MonitorState :=
  { knownCollections := [], knownCharacters := [] }

/-- `matchesWordFilter` (snipe_monitor.go lines 393–409): an empty filter
matches everything; otherwise some configured word must occur, case
insensitively, in the title. -/
def matchesWordFilter (f : SnipeFilter) (title : String) : Bool :=
  if f.wordFilter.isEmpty then true
  else f.wordFilter.any fun word => strContainsSub title.toLower word.toLower

/-- `matchesFilters` (snipe_monitor.go lines 412–436): a configured supply
range rejects a character strictly below its min or strictly above its max;
then likewise for the price range. -/
def matchesFilters (f : SnipeFilter) (c : Character) : Bool :=
  let supplyOk :=
    match f.supplyRange with
    | some r => if c.supply < r.min ∨ r.max < c.supply then false else true
    | none => true
  if supplyOk = false then false
  else
    match f.priceRange with
    | some r => if c.price < r.min ∨ r.max < c.price then false else true
    | none => true

def mkIntent (collectionID : Nat) (c : Character) : PurchaseRequest :=
  { CollectionID := collectionID, CharacterID := c.id, Price := c.price,
    Supply := c.supply, Name := c.name }

def markChar (collectionID characterID : Nat) (st : MonitorState) : MonitorState :=
  { st with knownCharacters := (collectionID, characterID) :: st.knownCharacters }

def markCol (collectionID : Nat) (st : MonitorState) : MonitorState :=
  { st with knownCollections := collectionID :: st.knownCollections }

/-- Character loop of `checkCollection` (snipe_monitor.go lines 300–329):
every character of the fresh collection is marked known, and an intent is
raised for each one matching the numeric filters — with no known-set check. -/
def checkCollectionChars (f : SnipeFilter) (collectionID : Nat) :
    List Character → MonitorState → MonitorState × List PurchaseRequest
  | [], st => (st, [])
  | c :: rest, st =>
    let r := checkCollectionChars f collectionID rest (markChar collectionID c.id st)
    if matchesFilters f c then (r.1, mkIntent collectionID c :: r.2) else r

/-- `checkCollection` (snipe_monitor.go lines 281–332), called for a
collection id seen for the first time: if the collection title fails the word
filter the function returns before marking any character. -/
def checkCollection (f : SnipeFilter) (col : Collection) (st : MonitorState) :
    MonitorState × List PurchaseRequest :=
  if matchesWordFilter f col.title = false then (st, [])
  else checkCollectionChars f col.id col.characters st

/-- Character loop of `checkCollectionForNewCharacters` (snipe_monitor.go
lines 348–387): a character already known is skipped entirely; a new one is
marked known first, then evaluated against the word filter (parent title) and
the numeric filters, raising an intent only when all pass. -/
def checkNewChars (f : SnipeFilter) (collectionID : Nat) (title : String) :
    List Character → MonitorState → MonitorState × List PurchaseRequest
  | [], st => (st, [])
  | c :: rest, st =>
    if st.knownCharacters.contains (collectionID, c.id) then
      checkNewChars f collectionID title rest st
    else
      let st' := markChar collectionID c.id st
      if matchesWordFilter f title = false then
        checkNewChars f collectionID title rest st'
      else if matchesFilters f c then
        let r := checkNewChars f collectionID title rest st'
        (r.1, mkIntent collectionID c :: r.2)
      else
        checkNewChars f collectionID title rest st'

/-- Body of the collection loop of `checkForNewItems` (snipe_monitor.go lines
260–275): a collection id not yet known is marked and handed to
`checkCollection`; then, known or not, its detail is re-checked for new
characters. -/
def collectionStep (f : SnipeFilter) (col : Collection) (st : MonitorState) :
    MonitorState × List PurchaseRequest :=
  let r1 :=
    if st.knownCollections.contains col.id then (st, ([] : List PurchaseRequest))
    else checkCollection f col (markCol col.id st)
  let r2 := checkNewChars f col.id col.title col.characters r1.1
  (r2.1, r1.2 ++ r2.2)

/-- The collection loop of `checkForNewItems`, one `collectionStep` per
collection of the snapshot, accumulating the raised intents in order. -/
def processSnapshot (f : SnipeFilter) :
    List Collection → MonitorState → MonitorState × List PurchaseRequest
  | [], st => (st, [])
  | col :: rest, st =>
    let r := collectionStep f col st
    let r3 := processSnapshot f rest r.1
    (r3.1, r.2 ++ r3.2)

/-- The seeding walk shared by `initializeState` (snipe_monitor.go lines
152–171) and the mid-run reinitialization (lines 231–257): every collection
id and every character key of the snapshot is recorded known; no intent is
raised (neither code path ever invokes the purchase callback). -/
def seedSnapshot : List Collection → MonitorState → MonitorState
  | [], st => st
  | col :: rest, st =>
    let st1 := markCol col.id st
    let st2 := col.characters.foldl (fun s c => markChar col.id c.id s) st1
    seedSnapshot rest st2

/-- `initializeState` (snipe_monitor.go lines 124–177). -/
def initializeState (snap : List Collection) (st : MonitorState) :
    MonitorState × List PurchaseRequest :=
  (seedSnapshot snap st, [])

/-- `checkForNewItems` (snipe_monitor.go lines 197–278): when the token was
refreshed during this cycle and the known-collection set is empty, the
snapshot is re-seeded as the new baseline and no intents are raised;
otherwise the snapshot is processed normally. -/
def checkForNewItems (f : SnipeFilter) (tokenWasRefreshed : Bool)
    (snap : List Collection) (st : MonitorState) : MonitorState × List PurchaseRequest :=
  if tokenWasRefreshed ∧ st.knownCollections.isEmpty then (seedSnapshot snap st, [])
  else processSnapshot f snap st

/-- A whole monitored run: the poll loop (`monitorLoop`, lines 180–194)
applies `checkForNewItems` to each successive snapshot; the flag in each pair
records whether that cycle refreshed the token. -/
def monitorRun (f : SnipeFilter) :
    List (Bool × List Collection) → MonitorState → MonitorState × List PurchaseRequest
  | [], st => (st, [])
  | (refreshed, snap) :: rest, st =>
    let r1 := checkForNewItems f refreshed snap st
    let r2 := monitorRun f rest r1.1
    (r2.1, r1.2 ++ r2.2)

/-- The `(collectionId, characterId)` keys of a list of intents. -/
def intentKeys (out : List PurchaseRequest) : List (Nat × Nat) :=
  out.map fun r => (r.CollectionID, r.CharacterID)

/-- Structural invariant of the monitor state: a known character key always
belongs to a known collection.  It holds initially (both sets empty) and is
maintained because characters are only recorded under a collection id that
was recorded first (`initializeState` and `checkForNewItems`). -/
def charImpliesCol (st : MonitorState) : Prop :=
  ∀ p : Nat × Nat, p ∈ st.knownCharacters → p.1 ∈ st.knownCollections

/-- Every id occurring in the snapshot is recorded in the state. -/
def allKnown (snap : List Collection) (st : MonitorState) : Prop :=
  (∀ col ∈ snap, col.id ∈ st.knownCollections) ∧
  (∀ col ∈ snap, ∀ c ∈ col.characters, (col.id, c.id) ∈ st.knownCharacters)

/-! ## The token manager (`internal/service/token_manager.go`) -/

/-- `TokenInfo` (token_manager.go lines 17–22); times are seconds. -/
structure TokenInfo where
  token : String
  expiresAt : Nat
  lastCheck : Nat
  deriving Repr, DecidableEq

/-- `tokenTTL` = 40 minutes (token_manager.go line 44). -/
def tokenTTLSeconds : Nat := 2400

/-- `checkCooldown` = 1 minute (token_manager.go line 45). -/
def checkCooldownSeconds : Nat := 60

/-- The reason classification of `RefreshTokenOnError` (token_manager.go
line 98): status 401, 403, or 200 (the code used for a structured JSON
invalid-token payload, cf. `RefreshTokenOnJSONError`). -/
def isTokenErrorStatus (statusCode : Nat) : Bool :=
  statusCode == 401 || statusCode == 403 || statusCode == 200

/-- Result of one `RefreshTokenOnError` call for one account: the returned
token (`none` = error return), the account's cache entry and config token
afterwards, and how many times the Telegram authenticator was invoked. -/
structure RefreshOutcome where
  result : Option String
  newEntry : Option TokenInfo
  newConfigToken : String
  authCalls : Nat
  deriving Repr, DecidableEq

/-- The refresh path of `RefreshTokenOnError` (token_manager.go lines
126–177): invoke the Telegram authenticator; on failure fall back to the
config token when present; reject an explicitly temporary token; otherwise
store the new token in config and cache with a fresh TTL window. -/
def doTelegramRefresh (entry : Option TokenInfo) (configToken : String) (now : Nat)
    (authResult : Option String) : RefreshOutcome :=
  match authResult with
  | none =>
    if configToken ≠ "" then
      { result := some configToken, newEntry := entry, newConfigToken := configToken,
        authCalls := 1 }
    else
      { result := none, newEntry := entry, newConfigToken := configToken, authCalls := 1 }
  | some newToken =>
    if strContainsSub newToken "INVALID_TEMP_TOKEN" then
      { result := none, newEntry := entry, newConfigToken := configToken, authCalls := 1 }
    else
      { result := some newToken,
        newEntry := some { token := newToken, expiresAt := now + tokenTTLSeconds,
                           lastCheck := now },
        newConfigToken := newToken, authCalls := 1 }

/-- `RefreshTokenOnError` (token_manager.go lines 91–177) for one account:
if the reason is not a token error and the cache entry was checked within the
cooldown window, the cached token is returned with no authenticator call;
otherwise a refresh is attempted. -/
def refreshTokenOnError (entry : Option TokenInfo) (configToken : String)
    (statusCode : Nat) (now : Nat) (authResult : Option String) : RefreshOutcome :=
  match entry with
  | some info =>
    if isTokenErrorStatus statusCode = false ∧ now - info.lastCheck < checkCooldownSeconds then
      { result := some info.token, newEntry := some info, newConfigToken := configToken,
        authCalls := 0 }
    else
      doTelegramRefresh (some info) configToken now authResult
  | none => doTelegramRefresh none configToken now authResult

/-! # Theorems -/

/-! ## C1 — transaction ceiling -/

theorem runWorker_inactive (maxTx : Nat) (w : AccountWorkerState) (outs : List Bool)
    (h : w.isActive = false) : runWorker maxTx w outs = (w, 0) := by
  cases outs with
  | nil => rfl
  | cons o rest => simp [runWorker, h]

theorem handleBuyOutcome_true_count (maxTx : Nat) (w : AccountWorkerState) :
    (handleBuyOutcome maxTx true w).transactionCount = w.transactionCount + 1 := by
  simp only [handleBuyOutcome, if_true]
  split_ifs <;> rfl

theorem handleBuyOutcome_true_active (maxTx : Nat) (hpos : 0 < maxTx)
    (w : AccountWorkerState) (hact : w.isActive = true) :
    (handleBuyOutcome maxTx true w).isActive = decide (w.transactionCount + 1 < maxTx) := by
  simp only [handleBuyOutcome, if_true]
  split_ifs with h
  · symm
    simp only [decide_eq_false_iff_not]
    omega
  · simp only [hact]
    symm
    simp only [decide_eq_true_eq]
    omega

theorem handleBuyOutcome_false (maxTx : Nat) (w : AccountWorkerState) :
    handleBuyOutcome maxTx false w = w := by
  simp [handleBuyOutcome]

theorem runWorker_inv (maxTx : Nat) (hpos : 0 < maxTx) (outs : List Bool) :
    ∀ w : AccountWorkerState,
      w.transactionCount ≤ maxTx →
      w.isActive = decide (w.transactionCount < maxTx) →
      (runWorker maxTx w outs).1.transactionCount
          = min maxTx (w.transactionCount + outs.count true) ∧
      (runWorker maxTx w outs).1.isActive
          = decide (w.transactionCount + outs.count true < maxTx) := by
  induction outs with
  | nil =>
    intro w hc ha
    refine ⟨?_, ?_⟩
    · simp [runWorker]
      omega
    · simpa [runWorker] using ha
  | cons o rest ih =>
    intro w hc ha
    by_cases hact : w.isActive = true
    · have hlt : w.transactionCount < maxTx := by
        rw [hact] at ha
        exact of_decide_eq_true ha.symm
      cases o
      · have h1 := handleBuyOutcome_false maxTx w
        have := ih w hc ha
        refine ⟨?_, ?_⟩
        · simpa [runWorker, hact, h1, List.count_cons] using this.1
        · simpa [runWorker, hact, h1, List.count_cons] using this.2
      · have h1 := handleBuyOutcome_true_count maxTx w
        have h2 := handleBuyOutcome_true_active maxTx hpos w hact
        have h3 : (handleBuyOutcome maxTx true w).transactionCount ≤ maxTx := by omega
        have h4 : (handleBuyOutcome maxTx true w).isActive
            = decide ((handleBuyOutcome maxTx true w).transactionCount < maxTx) := by
          rw [h1, h2]
        have hrec := ih (handleBuyOutcome maxTx true w) h3 h4
        refine ⟨?_, ?_⟩
        · rw [show (runWorker maxTx w (true :: rest)).1
              = (runWorker maxTx (handleBuyOutcome maxTx true w) rest).1 by
            simp [runWorker, hact]]
          rw [hrec.1, h1]
          simp [List.count_cons]
          omega
        · rw [show (runWorker maxTx w (true :: rest)).1
              = (runWorker maxTx (handleBuyOutcome maxTx true w) rest).1 by
            simp [runWorker, hact]]
          rw [hrec.2, h1]
          rw [decide_eq_decide]
          simp [List.count_cons]
          omega
    · have hfalse : w.isActive = false := by
        cases hw : w.isActive
        · rfl
        · exact absurd hw hact
      have hcnt : w.transactionCount = maxTx := by
        rw [hfalse] at ha
        have := of_decide_eq_false ha.symm
        omega
      rw [runWorker_inactive maxTx w (o :: rest) hfalse]
      refine ⟨?_, ?_⟩
      · simp [hcnt]
      · rw [hfalse, hcnt]
        symm
        simp only [decide_eq_false_iff_not]
        omega

theorem runWorker_zero (outs : List Bool) :
    ∀ w : AccountWorkerState, w.isActive = true →
      (runWorker 0 w outs).1.transactionCount = w.transactionCount + outs.count true ∧
      (runWorker 0 w outs).1.isActive = true := by
  induction outs with
  | nil =>
    intro w ha
    exact ⟨by simp [runWorker], by simpa [runWorker] using ha⟩
  | cons o rest ih =>
    intro w ha
    have hstep : handleBuyOutcome 0 o w
        = { transactionCount := w.transactionCount + (if o then 1 else 0),
            isActive := w.isActive } := by
      cases o
      · simp [handleBuyOutcome]
      · simp only [handleBuyOutcome, if_true]
        split_ifs with h
        · omega
        · simp
    have hrec := ih (handleBuyOutcome 0 o w) (by rw [hstep]; simpa using ha)
    refine ⟨?_, ?_⟩
    · rw [show (runWorker 0 w (o :: rest)).1 = (runWorker 0 (handleBuyOutcome 0 o w) rest).1 by
        simp [runWorker, ha]]
      rw [hrec.1, hstep]
      cases o
      · simp [List.count_cons]
        try omega
      · simp [List.count_cons]
        try omega
    · rw [show (runWorker 0 w (o :: rest)).1 = (runWorker 0 (handleBuyOutcome 0 o w) rest).1 by
        simp [runWorker, ha]]
      exact hrec.2

/-- C1 counterexample.  Account configured with `maxTransactions = 1` and two
worker threads.  `Start` gives each thread its own `AccountWorker`
(buyer.go lines 560–575), so after worker 0's single successful payment —
which makes the account-wide total reach the ceiling `N = 1` and flips only
worker 0 — worker 1 is still active (`isActive = true`) and its next cycle
performs one further purchase attempt (attempt count 1).  This contradicts
the claim that the account's run state flips once at the account-wide N-th
payment and that no worker of the account attempts any further purchase. -/
theorem ceilingAccountWideCounterexample :
    accountTotalSent (accountRun 1 [[true], [false]]) = 1 ∧
    accountRun 1 [[true], [false]]
      = [({ transactionCount := 1, isActive := false }, 1),
         ({ transactionCount := 0, isActive := true }, 1)] := by
  decide

/-- C1 (amended): the transaction ceiling is enforced per worker thread, not
account-wide.  For a worker with `maxTransactions = N > 0`: its private
counter equals `min N (number of its own successful payments)`; its own
`isActive` flag is cleared exactly when its own successes reach `N` (so the
flip happens exactly once, immediately at its N-th sent transaction); once
the flag is cleared the worker's loop performs no further purchase attempt;
and with `maxTransactions = 0` the worker never deactivates (unlimited). -/
theorem ceilingEnforcedPerWorker (maxTx : Nat) (hpos : 0 < maxTx) (outs : List Bool) :
    (runWorker maxTx initialAccountWorker outs).1.transactionCount
        = min maxTx (outs.count true) ∧
    ((runWorker maxTx initialAccountWorker outs).1.isActive = true
        ↔ outs.count true < maxTx) ∧
    (∀ w : AccountWorkerState, w.isActive = false → runWorker maxTx w outs = (w, 0)) ∧
    (runWorker 0 initialAccountWorker outs).1.isActive = true ∧
    (runWorker 0 initialAccountWorker outs).1.transactionCount = outs.count true := by
  have hinv := runWorker_inv maxTx hpos outs initialAccountWorker (by simp [initialAccountWorker])
    (by simp [initialAccountWorker, hpos])
  have hzero := runWorker_zero outs initialAccountWorker rfl
  refine ⟨?_, ?_, ?_, ?_, ?_⟩
  · simpa [initialAccountWorker] using hinv.1
  · rw [hinv.2]
    simp [initialAccountWorker]
  · intro w hw
    exact runWorker_inactive maxTx w outs hw
  · exact hzero.2
  · simpa [initialAccountWorker] using hzero.1

/-- Witness for C1's amended theorem at `maxTransactions = 2` and outcome
sequence success, failure, success. -/
theorem ceilingEnforcedPerWorkerWitness :
    (runWorker 2 initialAccountWorker [true, false, true]).1.transactionCount
        = min 2 ([true, false, true].count true) ∧
    ((runWorker 2 initialAccountWorker [true, false, true]).1.isActive = true
        ↔ [true, false, true].count true < 2) :=
  ⟨(ceilingEnforcedPerWorker 2 (by decide) [true, false, true]).1,
   (ceilingEnforcedPerWorker 2 (by decide) [true, false, true]).2.1⟩

/-! ## C2 — authorization-failure retry -/

theorem finalStage_counts (r : BuyResp) (oc rc f i maxTx : Nat) (w : AccountWorkerState) :
    (finalStage r oc rc f i maxTx w).1.orderCalls = oc ∧
    (finalStage r oc rc f i maxTx w).1.refreshCalls = rc := by
  unfold finalStage
  split_ifs <;> exact ⟨rfl, rfl⟩

theorem tokenErrorStage_bounds (r : BuyResp) (rs : List (Option BuyResp))
    (refreshes : List Bool) (oc rc maxTx : Nat) (w : AccountWorkerState) :
    (tokenErrorStage r rs refreshes oc rc maxTx w).1.orderCalls ≤ oc + 1 ∧
    (tokenErrorStage r rs refreshes oc rc maxTx w).1.refreshCalls ≤ rc + 1 := by
  by_cases h : r.isTokenError = true
  · rcases refreshes with _ | ⟨b, refreshes'⟩
    · simp [tokenErrorStage, h]
    · cases b
      · simp [tokenErrorStage, h]
      · rcases rs with _ | ⟨o, rs'⟩
        · simp [tokenErrorStage, h]
        · cases o with
          | none => simp [tokenErrorStage, h]
          | some r2 =>
            have hf := finalStage_counts r2 (oc + 1) (rc + 1) 1 1 maxTx w
            simp only [tokenErrorStage, h, if_true]
            exact ⟨le_of_eq hf.1, le_of_eq hf.2⟩
  · have hf := finalStage_counts r oc rc 0 0 maxTx w
    simp only [tokenErrorStage, h, if_false, Bool.false_eq_true]
    constructor
    · calc (finalStage r oc rc 0 0 maxTx w).1.orderCalls = oc := hf.1
        _ ≤ oc + 1 := by omega
    · calc (finalStage r oc rc 0 0 maxTx w).1.refreshCalls = rc := hf.2
        _ ≤ rc + 1 := by omega

/-- C2 counterexample.  Purchase cycle whose first order call returns HTTP
401, whose forced refresh succeeds, and whose retried call returns HTTP 401
again (the retried call also indicates an authorization failure).  The claim
says the cycle then records a failure and performs no further retry; the code
(buyer.go lines 647–704) instead enters the `IsTokenError` branch on the
retried response and performs a second refresh and a third order call:
the trace is 3 order calls and 2 refreshes. -/
theorem authRetryCounterexample :
    (performAccountBuyCycle true
        [some { statusCode := 401, bodyTokenError := false, transactionSent := false },
         some { statusCode := 401, bodyTokenError := false, transactionSent := false },
         some { statusCode := 500, bodyTokenError := false, transactionSent := false }]
        [true, true] 0 initialAccountWorker).1
      = { orderCalls := 3, refreshCalls := 2, failedInc := 2, invalidTokenInc := 1,
          successInc := 0, sentInc := 0 } := by
  decide

/-- C2 (amended): per purchase cycle, a 401/403 first response triggers one
forced refresh and one retry; if the (possibly retried) response still
carries the token-error flag, one further refresh and retry occur; hence
every cycle performs at most 2 forced refreshes and at most 3 order calls,
and a first response that is a structured invalid-token body on a
non-401/403 status (e.g. HTTP 200) gets exactly one refresh and one retried
call, with no further retry afterwards regardless of the retry's outcome. -/
theorem authRetryAtMostTwoRounds (tokenOk : Bool) (rs : List (Option BuyResp))
    (refreshes : List Bool) (maxTx : Nat) (w : AccountWorkerState) :
    (performAccountBuyCycle tokenOk rs refreshes maxTx w).1.orderCalls ≤ 3 ∧
    (performAccountBuyCycle tokenOk rs refreshes maxTx w).1.refreshCalls ≤ 2 ∧
    (∀ (r1 r2 : BuyResp) (rs2 : List (Option BuyResp)) (refreshes1 : List Bool),
      rs = some r1 :: some r2 :: rs2 → refreshes = true :: refreshes1 →
      tokenOk = true →
      (r1.statusCode == 401 || r1.statusCode == 403) = false →
      r1.bodyTokenError = true →
      (performAccountBuyCycle tokenOk rs refreshes maxTx w).1.refreshCalls = 1 ∧
      (performAccountBuyCycle tokenOk rs refreshes maxTx w).1.orderCalls = 2) := by
  refine ⟨?_, ?_, ?_⟩
  · cases tokenOk
    · simp [performAccountBuyCycle]
    · rcases rs with _ | ⟨o, rs1⟩
      · simp [performAccountBuyCycle]
      · cases o with
        | none => simp [performAccountBuyCycle]
        | some r1 =>
          by_cases h401 : (r1.statusCode == 401 || r1.statusCode == 403) = true
          · rcases refreshes with _ | ⟨b, refreshes1⟩
            · simp [performAccountBuyCycle, h401]
            · cases b
              · simp [performAccountBuyCycle, h401]
              · rcases rs1 with _ | ⟨o2, rs2⟩
                · simp [performAccountBuyCycle, h401]
                · cases o2 with
                  | none => simp [performAccountBuyCycle, h401]
                  | some r2 =>
                    have hb := tokenErrorStage_bounds r2 rs2 refreshes1 2 1 maxTx w
                    simp only [performAccountBuyCycle, h401, if_true, Bool.true_eq_false,
                      reduceCtorEq, reduceIte]
                    omega
          · have hb := tokenErrorStage_bounds r1 rs1 refreshes 1 0 maxTx w
            simp only [performAccountBuyCycle, h401, if_false, Bool.false_eq_true,
              Bool.true_eq_false, reduceCtorEq, reduceIte]
            omega
  · cases tokenOk
    · simp [performAccountBuyCycle]
    · rcases rs with _ | ⟨o, rs1⟩
      · simp [performAccountBuyCycle]
      · cases o with
        | none => simp [performAccountBuyCycle]
        | some r1 =>
          by_cases h401 : (r1.statusCode == 401 || r1.statusCode == 403) = true
          · rcases refreshes with _ | ⟨b, refreshes1⟩
            · simp [performAccountBuyCycle, h401]
            · cases b
              · simp [performAccountBuyCycle, h401]
              · rcases rs1 with _ | ⟨o2, rs2⟩
                · simp [performAccountBuyCycle, h401]
                · cases o2 with
                  | none => simp [performAccountBuyCycle, h401]
                  | some r2 =>
                    have hb := tokenErrorStage_bounds r2 rs2 refreshes1 2 1 maxTx w
                    simp only [performAccountBuyCycle, h401, if_true, Bool.true_eq_false,
                      reduceCtorEq, reduceIte]
                    omega
          · have hb := tokenErrorStage_bounds r1 rs1 refreshes 1 0 maxTx w
            simp only [performAccountBuyCycle, h401, if_false, Bool.false_eq_true,
              Bool.true_eq_false, reduceCtorEq, reduceIte]
            omega
  · intro r1 r2 rs2 refreshes1 hrs href htok h401 hbody
    subst hrs href htok
    have htokerr : r1.isTokenError = true := by
      simp [BuyResp.isTokenError, hbody]
    have hf := finalStage_counts r2 2 1 1 1 maxTx w
    simp only [performAccountBuyCycle, h401, Bool.false_eq_true, if_false, reduceIte,
      tokenErrorStage, htokerr, if_true]
    exact ⟨hf.2, hf.1⟩

/-- Witness for C2's amended theorem: a 200-status structured invalid-token
first response, a successful refresh, and a clean retried response. -/
theorem authRetryAtMostTwoRoundsWitness :
    (performAccountBuyCycle true
        [some { statusCode := 200, bodyTokenError := true, transactionSent := false },
         some { statusCode := 204, bodyTokenError := false, transactionSent := false }]
        [true] 0 initialAccountWorker).1.refreshCalls = 1 ∧
    (performAccountBuyCycle true
        [some { statusCode := 200, bodyTokenError := true, transactionSent := false },
         some { statusCode := 204, bodyTokenError := false, transactionSent := false }]
        [true] 0 initialAccountWorker).1.orderCalls = 2 :=
  (authRetryAtMostTwoRounds true
      [some { statusCode := 200, bodyTokenError := true, transactionSent := false },
       some { statusCode := 204, bodyTokenError := false, transactionSent := false }]
      [true] 0 initialAccountWorker).2.2
    { statusCode := 200, bodyTokenError := true, transactionSent := false }
    { statusCode := 204, bodyTokenError := false, transactionSent := false }
    [] [] rfl rfl rfl (by decide) rfl

/-! ## C3 — seqno confirmation loop -/

theorem waitSeqno_iff (e : Nat) :
    ∀ (fuel : Nat) (polls : List (Option Nat)),
      waitSeqno e fuel polls = true ↔
        ∃ i, i < fuel ∧ ∃ v, polls.getD i none = some v ∧ e ≤ v := by
  intro fuel
  induction fuel with
  | zero =>
    intro polls
    simp [waitSeqno]
  | succ n ih =>
    intro polls
    cases polls with
    | nil =>
      rw [show waitSeqno e (n + 1) [] = false from rfl]
      simp only [Bool.false_eq_true, false_iff]
      rintro ⟨i, hi, v, hv, hev⟩
      simp [List.getD] at hv
    | cons p rest =>
      cases p with
      | none =>
        rw [show waitSeqno e (n + 1) (none :: rest) = waitSeqno e n rest from rfl, ih rest]
        constructor
        · rintro ⟨i, hi, v, hv, hev⟩
          exact ⟨i + 1, by omega, v, by simpa using hv, hev⟩
        · rintro ⟨i, hi, v, hv, hev⟩
          cases i with
          | zero => simp at hv
          | succ j =>
            exact ⟨j, by omega, v, by simpa using hv, hev⟩
      | some s =>
        have hunf : waitSeqno e (n + 1) (some s :: rest)
            = if e ≤ s then true else waitSeqno e n rest := rfl
        by_cases hse : e ≤ s
        · rw [hunf, if_pos hse]
          constructor
          · intro _
            exact ⟨0, Nat.succ_pos n, s, rfl, hse⟩
          · intro _
            rfl
        · rw [hunf, if_neg hse, ih rest]
          constructor
          · rintro ⟨i, hi, v, hv, hev⟩
            exact ⟨i + 1, by omega, v, by simpa using hv, hev⟩
          · rintro ⟨i, hi, v, hv, hev⟩
            cases i with
            | zero =>
              simp only [List.getD_cons_zero, Option.some.injEq] at hv
              omega
            | succ j =>
              exact ⟨j, by omega, v, by simpa using hv, hev⟩

/-- C3: when the destination parses, the initial seqno read returns `s0` and
the broadcast succeeds, `processTransaction` polls the seqno at most 60
times; the result has `Success = true` exactly when some of those reads
reaches `s0 + 1`, and when the bound expires without an advance the result
is a failure even though the transfer was broadcast
(`transferAttempted ∧ transferOk`). -/
theorem seqnoConfirmationBound (env : ChainEnv) (req : TransactionRequest) (s0 : Nat)
    (hparse : env.parseOk
      (if req.TestMode ∧ req.TestAddress ≠ "" then req.TestAddress else req.ToAddress) = true)
    (hseq : env.initialSeqno = some s0)
    (htr : env.transferOk = true) :
    ((processTransaction env req).result.Success = true ↔
      ∃ i, i < 60 ∧ ∃ v, env.polls.getD i none = some v ∧ s0 + 1 ≤ v) ∧
    (processTransaction env req).transferAttempted = true ∧
    (processTransaction env req).transferOk = true := by
  have hiff := waitSeqno_iff (s0 + 1) 60 env.polls
  by_cases hc : waitSeqno (s0 + 1) 60 env.polls = true
  · have hout : processTransaction env req =
        { result :=
            { FromAddress := env.walletAddress,
              ToAddress :=
                if req.TestMode ∧ req.TestAddress ≠ "" then req.TestAddress else req.ToAddress,
              TransactionID :=
                "tx_" ++ toString req.Amount ++ "_" ++ req.Comment ++ "_" ++
                  env.walletAddress ++ "_" ++ toString env.txTime,
              Amount := req.Amount, Comment := req.Comment, Success := true },
          transferAttempted := true, transferOk := true,
          destination :=
            if req.TestMode ∧ req.TestAddress ≠ "" then req.TestAddress else req.ToAddress,
          sentAmount := req.Amount } := by
      unfold processTransaction
      rw [hseq]
      simp [hparse, htr, hc]
    rw [hout]
    refine ⟨⟨fun _ => hiff.mp hc, fun _ => rfl⟩, rfl, rfl⟩
  · have hcf : waitSeqno (s0 + 1) 60 env.polls = false := by
      cases h : waitSeqno (s0 + 1) 60 env.polls
      · rfl
      · exact absurd h hc
    have hout : processTransaction env req =
        { result := failResult env.walletAddress
            (if req.TestMode ∧ req.TestAddress ≠ "" then req.TestAddress else req.ToAddress)
            req.Amount req.Comment,
          transferAttempted := true, transferOk := true,
          destination :=
            if req.TestMode ∧ req.TestAddress ≠ "" then req.TestAddress else req.ToAddress,
          sentAmount := req.Amount } := by
      unfold processTransaction
      rw [hseq]
      simp [hparse, htr, hcf]
    rw [hout]
    exact ⟨⟨fun h => Bool.noConfusion h,
            fun hex => absurd (hiff.mpr hex) hc⟩, rfl, rfl⟩

/-- Witness for C3: a run whose second poll reaches the expected seqno. -/
theorem seqnoConfirmationBoundWitness :
    ((processTransaction
        { walletAddress := "w", parseOk := fun _ => true, initialSeqno := some 5,
          transferOk := true, polls := [none, some 6], txTime := 0 }
        { ToAddress := "to", Amount := 1, Comment := "c", TestMode := false,
          TestAddress := "" }).result.Success = true ↔
      ∃ i, i < 60 ∧ ∃ v,
        ([none, some 6] : List (Option Nat)).getD i none = some v ∧ 5 + 1 ≤ v) ∧
    (processTransaction
        { walletAddress := "w", parseOk := fun _ => true, initialSeqno := some 5,
          transferOk := true, polls := [none, some 6], txTime := 0 }
        { ToAddress := "to", Amount := 1, Comment := "c", TestMode := false,
          TestAddress := "" }).transferAttempted = true ∧
    (processTransaction
        { walletAddress := "w", parseOk := fun _ => true, initialSeqno := some 5,
          transferOk := true, polls := [none, some 6], txTime := 0 }
        { ToAddress := "to", Amount := 1, Comment := "c", TestMode := false,
          TestAddress := "" }).transferOk = true :=
  seqnoConfirmationBound
    { walletAddress := "w", parseOk := fun _ => true, initialSeqno := some 5,
      transferOk := true, polls := [none, some 6], txTime := 0 }
    { ToAddress := "to", Amount := 1, Comment := "c", TestMode := false, TestAddress := "" }
    5 rfl rfl rfl

/-! ## C4 — fixed fee padding by the caller -/

theorem wrap64_eq_of_bounds (y : Int) (h1 : -(2 ^ 63) ≤ y) (h2 : y < 2 ^ 63) :
    wrap64 y = y := by
  unfold wrap64
  have e1 : (2 : Int) ^ 63 = 9223372036854775808 := by norm_num
  have e2 : (2 : Int) ^ 64 = 18446744073709551616 := by norm_num
  rw [e1, e2]
  rw [e1] at h1 h2
  omega

theorem processTransaction_sentAmount (env : ChainEnv) (req : TransactionRequest) :
    (processTransaction env req).sentAmount = req.Amount := by
  unfold processTransaction
  dsimp only
  repeat' split
  all_goals rfl

/-- C4: for a successful purchase response carrying total amount `T` (with
`T + 0.25 TON` representable in `int64`) and an order id,
`BuyStickersAndPay` submits to the wallet queue a payment of exactly
`T + 250000000` nanotons; the queue itself passes the submitted amount to
the chain transfer unchanged (no padding inside the queue). -/
theorem feePaddingApplied (resp : ParsedBuyResp) (testMode : Bool) (testAddress : String)
    (env : ChainEnv)
    (hsucc : resp.Success = true) (horder : resp.OrderID ≠ "")
    (hlo : -(2 ^ 63) ≤ resp.TotalAmount) (hhi : resp.TotalAmount + 250000000 < 2 ^ 63) :
    ∃ req, submittedPayment resp testMode testAddress = some req ∧
      req.Amount = resp.TotalAmount + 250000000 ∧
      (processTransaction env req).sentAmount = resp.TotalAmount + 250000000 ∧
      (∀ (env' : ChainEnv) (req' : TransactionRequest),
        (processTransaction env' req').sentAmount = req'.Amount) := by
  have hcond : ¬(resp.Success = false ∨ resp.OrderID = "") := by
    rintro (h | h)
    · rw [hsucc] at h
      exact Bool.noConfusion h
    · exact horder h
  have hwrap : wrap64 (resp.TotalAmount + 250000000) = resp.TotalAmount + 250000000 := by
    refine wrap64_eq_of_bounds _ ?_ hhi
    have : (0 : Int) < 250000000 := by norm_num
    omega
  refine ⟨{ ToAddress := if testMode ∧ testAddress ≠ "" then testAddress else resp.Wallet,
            Amount := wrap64 (resp.TotalAmount + 250000000), Comment := resp.OrderID,
            TestMode := testMode, TestAddress := testAddress }, ?_, ?_, ?_, ?_⟩
  · unfold submittedPayment
    rw [if_neg hcond]
  · exact hwrap
  · rw [processTransaction_sentAmount]
    exact hwrap
  · intro env' req'
    exact processTransaction_sentAmount env' req'

/-- Witness for C4 at a concrete quoted amount of 25.05 TON. -/
theorem feePaddingAppliedWitness :
    ∃ req, submittedPayment
        { Success := true, OrderID := "ord", TotalAmount := 25050000000, Wallet := "W" }
        false "" = some req ∧
      req.Amount = (25050000000 : Int) + 250000000 ∧
      (processTransaction
          { walletAddress := "w", parseOk := fun _ => true, initialSeqno := some 0,
            transferOk := true, polls := [], txTime := 0 } req).sentAmount
        = (25050000000 : Int) + 250000000 ∧
      (∀ (env' : ChainEnv) (req' : TransactionRequest),
        (processTransaction env' req').sentAmount = req'.Amount) :=
  feePaddingApplied
    { Success := true, OrderID := "ord", TotalAmount := 25050000000, Wallet := "W" }
    false ""
    { walletAddress := "w", parseOk := fun _ => true, initialSeqno := some 0,
      transferOk := true, polls := [], txTime := 0 }
    rfl (by decide) (by norm_num) (by norm_num)

/-! ## C10 — test-mode destination override -/

theorem processTransaction_destination (env : ChainEnv) (req : TransactionRequest) :
    (processTransaction env req).destination
      = (if req.TestMode ∧ req.TestAddress ≠ "" then req.TestAddress else req.ToAddress) := by
  unfold processTransaction
  dsimp only
  repeat' split
  all_goals rfl

/-- C10: for the payment `BuyStickersAndPay` submits, when test mode is on
and the configured test address is non-empty the chain transfer's destination
is the test address, regardless of the API-provided payout wallet; with test
mode off the destination is the API-provided payout wallet. -/
theorem testModeDestination (resp : ParsedBuyResp) (testMode : Bool) (testAddress : String)
    (env : ChainEnv) (req : TransactionRequest)
    (hreq : submittedPayment resp testMode testAddress = some req) :
    (testMode = true → testAddress ≠ "" →
      (processTransaction env req).destination = testAddress) ∧
    (testMode = false →
      (processTransaction env req).destination = resp.Wallet) := by
  unfold submittedPayment at hreq
  by_cases hc : resp.Success = false ∨ resp.OrderID = ""
  · rw [if_pos hc] at hreq
    exact absurd hreq (by simp)
  · rw [if_neg hc] at hreq
    have hv := Option.some.inj hreq
    constructor
    · intro hm hta
      rw [processTransaction_destination, ← hv]
      simp [hm, hta]
    · intro hm
      rw [processTransaction_destination, ← hv]
      simp [hm]

/-- Witness for C10 with test mode on and test address `"T"`. -/
theorem testModeDestinationWitness :
    (true = true → ("T" : String) ≠ "" →
      (processTransaction
          { walletAddress := "w", parseOk := fun _ => true, initialSeqno := some 0,
            transferOk := true, polls := [], txTime := 0 }
          { ToAddress := "T", Amount := 1250000000, Comment := "ord", TestMode := true,
            TestAddress := "T" }).destination = "T") ∧
    (true = false →
      (processTransaction
          { walletAddress := "w", parseOk := fun _ => true, initialSeqno := some 0,
            transferOk := true, polls := [], txTime := 0 }
          { ToAddress := "T", Amount := 1250000000, Comment := "ord", TestMode := true,
            TestAddress := "T" }).destination = "W") :=
  testModeDestination
    { Success := true, OrderID := "ord", TotalAmount := 1000000000, Wallet := "W" }
    true "T"
    { walletAddress := "w", parseOk := fun _ => true, initialSeqno := some 0,
      transferOk := true, polls := [], txTime := 0 }
    { ToAddress := "T", Amount := 1250000000, Comment := "ord", TestMode := true,
      TestAddress := "T" }
    (by decide)

/-! ## C8 — refresh cooldown -/

theorem doTelegramRefresh_authCalls (entry : Option TokenInfo) (configToken : String)
    (now : Nat) (authResult : Option String) :
    (doTelegramRefresh entry configToken now authResult).authCalls = 1 := by
  unfold doTelegramRefresh
  repeat' split
  all_goals rfl

/-- C8: calling `RefreshTokenOnError` with a non-authorization status while
the account's cache entry is inside the cooldown window returns the cached
token, leaves the entry unchanged and never invokes the authenticator — so
two such calls yield the same cached value with zero (≤ 1) authenticator
invocations; whereas any authorization-failure status (401, 403, or the 200
used for a structured invalid-token payload) bypasses the cooldown and every
such call invokes the authenticator exactly once. -/
theorem refreshCooldown (info : TokenInfo) (cfg cfg2 : String) (status : Nat)
    (t1 t2 : Nat) (auth1 auth2 : Option String)
    (hs : isTokenErrorStatus status = false)
    (h1 : t1 - info.lastCheck < checkCooldownSeconds)
    (h2 : t2 - info.lastCheck < checkCooldownSeconds) :
    (refreshTokenOnError (some info) cfg status t1 auth1).result = some info.token ∧
    (refreshTokenOnError (some info) cfg status t1 auth1).authCalls = 0 ∧
    (refreshTokenOnError (some info) cfg status t1 auth1).newEntry = some info ∧
    (refreshTokenOnError (some info) cfg2 status t2 auth2).result = some info.token ∧
    (refreshTokenOnError (some info) cfg2 status t2 auth2).authCalls = 0 ∧
    (∀ (entry : Option TokenInfo) (cfg' : String) (s' t' : Nat) (auth' : Option String),
      isTokenErrorStatus s' = true →
      (refreshTokenOnError entry cfg' s' t' auth').authCalls = 1) := by
  have hcall1 : refreshTokenOnError (some info) cfg status t1 auth1
      = { result := some info.token, newEntry := some info, newConfigToken := cfg,
          authCalls := 0 } := by
    unfold refreshTokenOnError
    dsimp only
    rw [if_pos ⟨hs, h1⟩]
  have hcall2 : refreshTokenOnError (some info) cfg2 status t2 auth2
      = { result := some info.token, newEntry := some info, newConfigToken := cfg2,
          authCalls := 0 } := by
    unfold refreshTokenOnError
    dsimp only
    rw [if_pos ⟨hs, h2⟩]
  refine ⟨by rw [hcall1], by rw [hcall1], by rw [hcall1], by rw [hcall2], by rw [hcall2], ?_⟩
  intro entry cfg' s' t' auth' hs'
  cases entry with
  | none =>
    rw [show refreshTokenOnError none cfg' s' t' auth'
        = doTelegramRefresh none cfg' t' auth' from rfl]
    exact doTelegramRefresh_authCalls none cfg' t' auth'
  | some info' =>
    have hneg : ¬(isTokenErrorStatus s' = false ∧ t' - info'.lastCheck < checkCooldownSeconds) := by
      rintro ⟨hf, _⟩
      rw [hs'] at hf
      exact Bool.noConfusion hf
    unfold refreshTokenOnError
    dsimp only
    rw [if_neg hneg]
    exact doTelegramRefresh_authCalls (some info') cfg' t' auth'

/-- Witness for C8: entry last checked at `t = 100`, two calls at `t = 110`
and `t = 120` with a non-authorization status 500. -/
theorem refreshCooldownWitness :
    (refreshTokenOnError (some { token := "tok", expiresAt := 2500, lastCheck := 100 })
        "cfg" 500 110 (some "fresh")).result = some "tok" ∧
    (refreshTokenOnError (some { token := "tok", expiresAt := 2500, lastCheck := 100 })
        "cfg" 500 110 (some "fresh")).authCalls = 0 ∧
    (refreshTokenOnError (some { token := "tok", expiresAt := 2500, lastCheck := 100 })
        "cfg" 500 120 (some "fresh")).result = some "tok" :=
  ⟨(refreshCooldown { token := "tok", expiresAt := 2500, lastCheck := 100 } "cfg" "cfg" 500
      110 120 (some "fresh") (some "fresh") (by decide) (by decide) (by decide)).1,
   (refreshCooldown { token := "tok", expiresAt := 2500, lastCheck := 100 } "cfg" "cfg" 500
      110 120 (some "fresh") (some "fresh") (by decide) (by decide) (by decide)).2.1,
   (refreshCooldown { token := "tok", expiresAt := 2500, lastCheck := 100 } "cfg" "cfg" 500
      110 120 (some "fresh") (some "fresh") (by decide) (by decide) (by decide)).2.2.2.1⟩

/-! ## C5 — queue submission always yields a result -/

theorem processQueueRun_getD (envAt : Nat → ChainEnv) (r : TransactionRequest)
    (d : TransactionResult) :
    ∀ (buffer : List TransactionRequest) (i : Nat),
      (processQueueRun envAt i (buffer ++ [r])).getD buffer.length d
        = (processTransaction (envAt (i + buffer.length)) r).result := by
  intro buffer
  induction buffer with
  | nil =>
    intro i
    simp [processQueueRun]
  | cons b rest ih =>
    intro i
    rw [show (b :: rest) ++ [r] = b :: (rest ++ [r]) from rfl]
    rw [show processQueueRun envAt i (b :: (rest ++ [r]))
        = (processTransaction (envAt i) b).result :: processQueueRun envAt (i + 1) (rest ++ [r])
      from rfl]
    simp only [List.length_cons, List.getD_cons_succ]
    rw [ih (i + 1)]
    have hidx : i + 1 + rest.length = i + (rest.length + 1) := by omega
    rw [hidx]

/-- C5: every `AddTransaction` call returns a result.  If the request cannot
be enqueued within the 5-second submission timeout, a failure result
(`Success = false`, the attempted destination/amount/comment preserved) is
returned at once; if it is enqueued behind `buffered` pending requests, the
caller receives exactly the result the serialized queue worker computes for
its request — never nothing. -/
theorem addTransactionAlwaysReturns (walletAddress : String)
    (buffered : List TransactionRequest) (accepted : Bool) (envAt : Nat → ChainEnv)
    (toAddress : String) (amount : Int) (comment : String) (testMode : Bool)
    (testAddress : String) :
    (accepted = false →
      addTransaction walletAddress buffered accepted envAt toAddress amount comment
          testMode testAddress
        = failResult walletAddress toAddress amount comment ∧
      (failResult walletAddress toAddress amount comment).Success = false) ∧
    (accepted = true →
      addTransaction walletAddress buffered accepted envAt toAddress amount comment
          testMode testAddress
        = (processTransaction (envAt buffered.length)
            { ToAddress := toAddress, Amount := amount, Comment := comment,
              TestMode := testMode, TestAddress := testAddress }).result) := by
  constructor
  · intro h
    subst h
    exact ⟨by simp [addTransaction], rfl⟩
  · intro h
    subst h
    unfold addTransaction
    rw [if_pos rfl]
    have := processQueueRun_getD envAt
      { ToAddress := toAddress, Amount := amount, Comment := comment,
        TestMode := testMode, TestAddress := testAddress }
      (failResult walletAddress toAddress amount comment) buffered 0
    simpa using this

/-- Witness for C5: a one-deep queue that accepts the request. -/
theorem addTransactionAlwaysReturnsWitness :
    addTransaction "w"
        [{ ToAddress := "x", Amount := 2, Comment := "c0", TestMode := false,
           TestAddress := "" }]
        true
        (fun _ =>
          { walletAddress := "w", parseOk := fun _ => true, initialSeqno := some 0,
            transferOk := true, polls := [some 1], txTime := 0 })
        "to" 5 "c" false ""
      = (processTransaction
          { walletAddress := "w", parseOk := fun _ => true, initialSeqno := some 0,
            transferOk := true, polls := [some 1], txTime := 0 }
          { ToAddress := "to", Amount := 5, Comment := "c", TestMode := false,
            TestAddress := "" }).result :=
  (addTransactionAlwaysReturns "w"
      [{ ToAddress := "x", Amount := 2, Comment := "c0", TestMode := false,
         TestAddress := "" }]
      true
      (fun _ =>
        { walletAddress := "w", parseOk := fun _ => true, initialSeqno := some 0,
          transferOk := true, polls := [some 1], txTime := 0 })
      "to" 5 "c" false "").2 rfl

/-! ## C9 — filter semantics -/

theorem listIsPref_iff (p : List Char) :
    ∀ s, listIsPref p s = true ↔ ∃ r, s = p ++ r := by
  induction p with
  | nil =>
    intro s
    simp [listIsPref]
  | cons a as ih =>
    intro s
    cases s with
    | nil =>
      rw [show listIsPref (a :: as) [] = false from rfl]
      simp only [Bool.false_eq_true, false_iff]
      rintro ⟨r, hr⟩
      exact List.cons_ne_nil a (as ++ r) hr.symm
    | cons b bs =>
      rw [show listIsPref (a :: as) (b :: bs) = (a == b && listIsPref as bs) from rfl]
      simp only [Bool.and_eq_true, beq_iff_eq, ih bs]
      constructor
      · rintro ⟨hab, r, hr⟩
        exact ⟨r, by rw [hr, hab]; rfl⟩
      · rintro ⟨r, hr⟩
        rw [show (a :: as) ++ r = a :: (as ++ r) from rfl] at hr
        injection hr with hb hbs
        exact ⟨hb.symm, r, hbs⟩

theorem listHasSub_iff (pat : List Char) :
    ∀ s, listHasSub pat s = true ↔ ∃ l r, s = l ++ pat ++ r := by
  intro s
  induction s with
  | nil =>
    constructor
    · intro h
      have hp : pat = [] := by
        simpa [listHasSub, List.isEmpty_iff] using h
      exact ⟨[], [], by simp [hp]⟩
    · rintro ⟨l, r, hr⟩
      have h1 := (List.append_eq_nil.mp hr.symm).1
      have hp : pat = [] := (List.append_eq_nil.mp h1).2
      simp [listHasSub, hp]
  | cons c rest ih =>
    rw [show listHasSub pat (c :: rest) = (listIsPref pat (c :: rest) || listHasSub pat rest)
      from rfl]
    simp only [Bool.or_eq_true, listIsPref_iff, ih]
    constructor
    · rintro (⟨r, hr⟩ | ⟨l, r, hr⟩)
      · exact ⟨[], r, by simpa using hr⟩
      · exact ⟨c :: l, r, by simp [hr]⟩
    · rintro ⟨l, r, hr⟩
      cases l with
      | nil =>
        exact Or.inl ⟨r, by simpa using hr⟩
      | cons x xs =>
        right
        rw [show ((x :: xs) ++ pat ++ r) = x :: (xs ++ pat ++ r) from rfl] at hr
        injection hr with _ hrest
        exact ⟨xs, r, hrest⟩

theorem matchesWordFilter_iff (f : SnipeFilter) (title : String) :
    matchesWordFilter f title = true ↔
      f.wordFilter = [] ∨
      ∃ w ∈ f.wordFilter, ∃ l r,
        (title.toLower).toList = l ++ (w.toLower).toList ++ r := by
  unfold matchesWordFilter
  by_cases he : f.wordFilter.isEmpty = true
  · rw [if_pos he]
    simp only [List.isEmpty_iff] at he
    simp [he]
  · rw [if_neg he]
    simp only [List.isEmpty_iff] at he
    simp only [List.any_eq_true, strContainsSub, listHasSub_iff]
    constructor
    · rintro ⟨w, hw, hsub⟩
      exact Or.inr ⟨w, hw, hsub⟩
    · rintro (h | ⟨w, hw, hsub⟩)
      · exact absurd h he
      · exact ⟨w, hw, hsub⟩

theorem matchesFilters_iff (f : SnipeFilter) (c : Character) :
    matchesFilters f c = true ↔
      ((∀ rng, f.supplyRange = some rng → rng.min ≤ c.supply ∧ c.supply ≤ rng.max) ∧
       (∀ rng, f.priceRange = some rng → rng.min ≤ c.price ∧ c.price ≤ rng.max)) := by
  unfold matchesFilters
  cases hs : f.supplyRange with
  | none =>
    dsimp only
    rw [if_neg (fun h => Bool.noConfusion h)]
    cases hp : f.priceRange with
    | none =>
      constructor
      · intro _
        exact ⟨fun rng hrng => Option.noConfusion hrng, fun rng hrng => Option.noConfusion hrng⟩
      · intro _
        rfl
    | some rp =>
      dsimp only
      by_cases hc : c.price < rp.min ∨ rp.max < c.price
      · rw [if_pos hc]
        constructor
        · intro h
          exact absurd h Bool.noConfusion
        · rintro ⟨_, h2⟩
          have := h2 rp rfl
          rcases hc with hc | hc <;> omega
      · rw [if_neg hc]
        push_neg at hc
        constructor
        · intro _
          refine ⟨fun rng hrng => Option.noConfusion hrng, fun rng hrng => ?_⟩
          injection hrng with h
          subst h
          exact hc
        · intro _
          rfl
  | some rs =>
    dsimp only
    by_cases hc1 : c.supply < rs.min ∨ rs.max < c.supply
    · rw [if_pos hc1, if_pos rfl]
      constructor
      · intro h
        exact absurd h Bool.noConfusion
      · rintro ⟨h1, _⟩
        have := h1 rs rfl
        rcases hc1 with hc1 | hc1 <;> omega
    · rw [if_neg hc1]
      rw [if_neg (fun h => Bool.noConfusion h)]
      push_neg at hc1
      cases hp : f.priceRange with
      | none =>
        constructor
        · intro _
          refine ⟨fun rng hrng => ?_, fun rng hrng => Option.noConfusion hrng⟩
          injection hrng with h
          subst h
          exact hc1
        · intro _
          rfl
      | some rp =>
        dsimp only
        by_cases hc2 : c.price < rp.min ∨ rp.max < c.price
        · rw [if_pos hc2]
          constructor
          · intro h
            exact absurd h Bool.noConfusion
          · rintro ⟨_, h2⟩
            have := h2 rp rfl
            rcases hc2 with hc2 | hc2 <;> omega
        · rw [if_neg hc2]
          push_neg at hc2
          constructor
          · intro _
            refine ⟨fun rng hrng => ?_, fun rng hrng => ?_⟩
            · injection hrng with h
              subst h
              exact hc1
            · injection hrng with h
              subst h
              exact hc2
          · intro _
            rfl

/-- C9: the keyword filter accepts a title iff the configured word list is
empty or some configured word is a case-insensitive contiguous substring of
the title; the supply- and price-range filters accept a character iff its
supply and price lie within the configured inclusive bounds; and processing
one newly discovered character raises exactly one purchase intent when both
the word filter (on the parent title) and the numeric filters accept it, and
none otherwise. -/
theorem filterSemantics (f : SnipeFilter) (title : String) (c : Character)
    (cid : Nat) (st : MonitorState)
    (hnew : st.knownCharacters.contains (cid, c.id) = false) :
    (matchesWordFilter f title = true ↔
      f.wordFilter = [] ∨
      ∃ w ∈ f.wordFilter, ∃ l r,
        (title.toLower).toList = l ++ (w.toLower).toList ++ r) ∧
    (matchesFilters f c = true ↔
      ((∀ rng, f.supplyRange = some rng → rng.min ≤ c.supply ∧ c.supply ≤ rng.max) ∧
       (∀ rng, f.priceRange = some rng → rng.min ≤ c.price ∧ c.price ≤ rng.max))) ∧
    ((checkNewChars f cid title [c] st).2
      = if matchesWordFilter f title && matchesFilters f c then [mkIntent cid c] else []) := by
  refine ⟨matchesWordFilter_iff f title, matchesFilters_iff f c, ?_⟩
  have hmem : (cid, c.id) ∉ st.knownCharacters := by
    simpa using hnew
  have hcond : ¬(st.knownCharacters.contains (cid, c.id) = true) := by
    simpa using hmem
  unfold checkNewChars
  rw [if_neg hcond]
  dsimp only
  cases hw : matchesWordFilter f title with
  | false =>
    rw [if_pos rfl]
    simp [checkNewChars]
  | true =>
    rw [if_neg (fun h => Bool.noConfusion h)]
    cases hm : matchesFilters f c with
    | false =>
      rw [if_neg (fun h => Bool.noConfusion h)]
      simp [checkNewChars]
    | true =>
      rw [if_pos rfl]
      simp [checkNewChars]

/-- Witness for C9: a one-word filter matching the title, a supply range
accepting the character, no price range, character unknown in the empty
state. -/
theorem filterSemanticsWitness :
    ((matchesWordFilter
        { wordFilter := ["rare"], supplyRange := some { min := 1, max := 10 },
          priceRange := none } "A Rare Set" = true ↔
      (["rare"] : List String) = [] ∨
      ∃ w ∈ (["rare"] : List String), ∃ l r,
        (("A Rare Set" : String).toLower).toList = l ++ (w.toLower).toList ++ r) ∧
    (matchesFilters
        { wordFilter := ["rare"], supplyRange := some { min := 1, max := 10 },
          priceRange := none }
        { id := 7, name := "x", price := 5, supply := 5 } = true ↔
      ((∀ rng, (some { min := 1, max := 10 } : Option RangeFilter) = some rng →
          rng.min ≤ (5 : Int) ∧ (5 : Int) ≤ rng.max) ∧
       (∀ rng, (none : Option RangeFilter) = some rng →
          rng.min ≤ (5 : Int) ∧ (5 : Int) ≤ rng.max))) ∧
    ((checkNewChars
        { wordFilter := ["rare"], supplyRange := some { min := 1, max := 10 },
          priceRange := none } 1 "A Rare Set"
        [{ id := 7, name := "x", price := 5, supply := 5 }] emptyMonitorState).2
      = if matchesWordFilter
            { wordFilter := ["rare"], supplyRange := some { min := 1, max := 10 },
              priceRange := none } "A Rare Set" &&
           matchesFilters
            { wordFilter := ["rare"], supplyRange := some { min := 1, max := 10 },
              priceRange := none }
            { id := 7, name := "x", price := 5, supply := 5 }
        then [mkIntent 1 { id := 7, name := "x", price := 5, supply := 5 }] else [])) :=
  filterSemantics
    { wordFilter := ["rare"], supplyRange := some { min := 1, max := 10 },
      priceRange := none }
    "A Rare Set" { id := 7, name := "x", price := 5, supply := 5 } 1 emptyMonitorState rfl

/-! ## C6 / C7 — monitor known-id machinery -/

theorem checkCollectionChars_nil (f : SnipeFilter) (cid : Nat) (st : MonitorState) :
    checkCollectionChars f cid [] st = (st, []) := rfl

theorem checkCollectionChars_cons (f : SnipeFilter) (cid : Nat) (c : Character)
    (rest : List Character) (st : MonitorState) :
    checkCollectionChars f cid (c :: rest) st
      = if matchesFilters f c then
          ((checkCollectionChars f cid rest (markChar cid c.id st)).1,
           mkIntent cid c :: (checkCollectionChars f cid rest (markChar cid c.id st)).2)
        else checkCollectionChars f cid rest (markChar cid c.id st) := rfl

theorem checkNewChars_nil (f : SnipeFilter) (cid : Nat) (title : String) (st : MonitorState) :
    checkNewChars f cid title [] st = (st, []) := rfl

theorem checkNewChars_cons (f : SnipeFilter) (cid : Nat) (title : String)
    (c : Character) (rest : List Character) (st : MonitorState) :
    checkNewChars f cid title (c :: rest) st
      = if st.knownCharacters.contains (cid, c.id) then checkNewChars f cid title rest st
        else if matchesWordFilter f title = false then
          checkNewChars f cid title rest (markChar cid c.id st)
        else if matchesFilters f c then
          ((checkNewChars f cid title rest (markChar cid c.id st)).1,
            mkIntent cid c :: (checkNewChars f cid title rest (markChar cid c.id st)).2)
        else checkNewChars f cid title rest (markChar cid c.id st) := rfl

theorem mem_markChar (k : Nat × Nat) (cid id : Nat) (st : MonitorState) :
    k ∈ (markChar cid id st).knownCharacters ↔ k = (cid, id) ∨ k ∈ st.knownCharacters :=
  List.mem_cons

theorem checkCollectionChars_spec (f : SnipeFilter) (cid : Nat) :
    ∀ (chars : List Character) (st : MonitorState),
      (checkCollectionChars f cid chars st).1.knownCollections = st.knownCollections ∧
      (∀ k, k ∈ st.knownCharacters →
        k ∈ (checkCollectionChars f cid chars st).1.knownCharacters) ∧
      (∀ k, k ∈ (checkCollectionChars f cid chars st).1.knownCharacters →
        k ∈ st.knownCharacters ∨ ∃ c, c ∈ chars ∧ k = (cid, c.id)) ∧
      (∀ c, c ∈ chars → (cid, c.id) ∈ (checkCollectionChars f cid chars st).1.knownCharacters) ∧
      (∀ q, q ∈ (checkCollectionChars f cid chars st).2 →
        ∃ c, c ∈ chars ∧ q = mkIntent cid c) := by
  intro chars
  induction chars with
  | nil =>
    intro st
    rw [checkCollectionChars_nil]
    exact ⟨rfl, fun k hk => hk, fun k hk => Or.inl hk,
      fun c hc => absurd hc (by simp), fun q hq => absurd hq (by simp)⟩
  | cons c rest ih =>
    intro st
    obtain ⟨ih1, ih2, ih3, ih4, ih5⟩ := ih (markChar cid c.id st)
    have hres1 : (checkCollectionChars f cid (c :: rest) st).1
        = (checkCollectionChars f cid rest (markChar cid c.id st)).1 := by
      rw [checkCollectionChars_cons]
      split
      · rfl
      · rfl
    have hres2 : ∀ q, q ∈ (checkCollectionChars f cid (c :: rest) st).2 →
        q = mkIntent cid c ∨ q ∈ (checkCollectionChars f cid rest (markChar cid c.id st)).2 := by
      intro q hq
      rw [checkCollectionChars_cons] at hq
      rcases hsplit : matchesFilters f c with _ | _
      · rw [hsplit] at hq
        simp only [if_neg (by simp : ¬(false = true))] at hq
        exact Or.inr hq
      · rw [hsplit] at hq
        simp only [if_pos rfl] at hq
        rcases List.mem_cons.mp hq with h | h
        · exact Or.inl h
        · exact Or.inr h
    refine ⟨?_, ?_, ?_, ?_, ?_⟩
    · rw [hres1]
      exact ih1
    · intro k hk
      rw [hres1]
      exact ih2 k ((mem_markChar k cid c.id st).mpr (Or.inr hk))
    · intro k hk
      rw [hres1] at hk
      rcases ih3 k hk with h | ⟨c', hc', hk'⟩
      · rcases (mem_markChar k cid c.id st).mp h with h' | h'
        · exact Or.inr ⟨c, List.mem_cons_self c rest, h'⟩
        · exact Or.inl h'
      · exact Or.inr ⟨c', List.mem_cons_of_mem c hc', hk'⟩
    · intro c' hc'
      rw [hres1]
      rcases List.mem_cons.mp hc' with h | h
      · subst h
        exact ih2 _ ((mem_markChar _ cid c'.id st).mpr (Or.inl rfl))
      · exact ih4 c' h
    · intro q hq
      rcases hres2 q hq with h | h
      · exact ⟨c, List.mem_cons_self c rest, h⟩
      · obtain ⟨c', hc', hq'⟩ := ih5 q h
        exact ⟨c', List.mem_cons_of_mem c hc', hq'⟩

theorem checkCollectionChars_nodup (f : SnipeFilter) (cid : Nat) :
    ∀ (chars : List Character) (st : MonitorState),
      (chars.map Character.id).Nodup →
      (intentKeys (checkCollectionChars f cid chars st).2).Nodup := by
  intro chars
  induction chars with
  | nil =>
    intro st _
    rw [checkCollectionChars_nil]
    simp [intentKeys]
  | cons c rest ih =>
    intro st hnd
    have hnd' : (rest.map Character.id).Nodup := (List.nodup_cons.mp hnd).2
    have hcid : c.id ∉ rest.map Character.id := (List.nodup_cons.mp hnd).1
    have hihm := ih (markChar cid c.id st) hnd'
    rw [checkCollectionChars_cons]
    split
    · simp only [intentKeys, List.map_cons]
      rw [List.nodup_cons]
      refine ⟨?_, hihm⟩
      intro hmem
      simp only [intentKeys, List.mem_map] at hmem
      obtain ⟨q, hq, hkey⟩ := hmem
      obtain ⟨c', hc', hq'⟩ :=
        (checkCollectionChars_spec f cid rest (markChar cid c.id st)).2.2.2.2 q hq
      subst hq'
      have : c'.id = c.id := by
        have := congrArg Prod.snd hkey
        simpa [mkIntent] using this
      exact hcid (this ▸ List.mem_map_of_mem Character.id hc')
    · exact hihm

theorem checkNewChars_spec (f : SnipeFilter) (cid : Nat) (title : String) :
    ∀ (chars : List Character) (st : MonitorState),
      (checkNewChars f cid title chars st).1.knownCollections = st.knownCollections ∧
      (∀ k, k ∈ st.knownCharacters →
        k ∈ (checkNewChars f cid title chars st).1.knownCharacters) ∧
      (∀ k, k ∈ (checkNewChars f cid title chars st).1.knownCharacters →
        k ∈ st.knownCharacters ∨ ∃ c, c ∈ chars ∧ k = (cid, c.id)) ∧
      (∀ c, c ∈ chars → (cid, c.id) ∈ (checkNewChars f cid title chars st).1.knownCharacters) ∧
      (∀ q, q ∈ (checkNewChars f cid title chars st).2 →
        (∃ c, c ∈ chars ∧ q = mkIntent cid c) ∧
        (q.CollectionID, q.CharacterID) ∉ st.knownCharacters ∧
        (q.CollectionID, q.CharacterID) ∈ (checkNewChars f cid title chars st).1.knownCharacters) ∧
      (intentKeys (checkNewChars f cid title chars st).2).Nodup := by
  intro chars
  induction chars with
  | nil =>
    intro st
    rw [checkNewChars_nil]
    exact ⟨rfl, fun k hk => hk, fun k hk => Or.inl hk,
      fun c hc => absurd hc (by simp), fun q hq => absurd hq (by simp),
      by simp [intentKeys]⟩
  | cons c rest ih =>
    intro st
    by_cases hk : st.knownCharacters.contains (cid, c.id) = true
    · have hkm : (cid, c.id) ∈ st.knownCharacters := by simpa using hk
      obtain ⟨ih1, ih2, ih3, ih4, ih5, ih6⟩ := ih st
      have heq : checkNewChars f cid title (c :: rest) st = checkNewChars f cid title rest st := by
        rw [checkNewChars_cons, if_pos hk]
      rw [heq]
      refine ⟨ih1, ih2, ?_, ?_, ?_, ih6⟩
      · intro k hkk
        rcases ih3 k hkk with h | ⟨c', hc', h⟩
        · exact Or.inl h
        · exact Or.inr ⟨c', List.mem_cons_of_mem c hc', h⟩
      · intro c' hc'
        rcases List.mem_cons.mp hc' with h | h
        · subst h
          exact ih2 _ hkm
        · exact ih4 c' h
      · intro q hq
        obtain ⟨⟨c', hc', hq'⟩, hfresh, hin⟩ := ih5 q hq
        exact ⟨⟨c', List.mem_cons_of_mem c hc', hq'⟩, hfresh, hin⟩
    · have hkm : (cid, c.id) ∉ st.knownCharacters := by
        intro h
        exact hk (by simpa using h)
      obtain ⟨ih1, ih2, ih3, ih4, ih5, ih6⟩ := ih (markChar cid c.id st)
      have hne : ¬(st.knownCharacters.contains (cid, c.id) = true) := hk
      -- common facts about the recursive state
      have hmark_in : (cid, c.id) ∈ (checkNewChars f cid title rest (markChar cid c.id st)).1.knownCharacters :=
        ih2 _ ((mem_markChar _ cid c.id st).mpr (Or.inl rfl))
      have hcommon : ∀ res : MonitorState × List PurchaseRequest,
          res.1 = (checkNewChars f cid title rest (markChar cid c.id st)).1 →
          (∀ q, q ∈ res.2 → q = mkIntent cid c ∨
            q ∈ (checkNewChars f cid title rest (markChar cid c.id st)).2) →
          (res.1.knownCollections = st.knownCollections ∧
          (∀ k, k ∈ st.knownCharacters → k ∈ res.1.knownCharacters) ∧
          (∀ k, k ∈ res.1.knownCharacters →
            k ∈ st.knownCharacters ∨ ∃ c', c' ∈ c :: rest ∧ k = (cid, c'.id)) ∧
          (∀ c', c' ∈ c :: rest → (cid, c'.id) ∈ res.1.knownCharacters) ∧
          (∀ q, q ∈ res.2 →
            (∃ c', c' ∈ c :: rest ∧ q = mkIntent cid c') ∧
            (q.CollectionID, q.CharacterID) ∉ st.knownCharacters ∧
            (q.CollectionID, q.CharacterID) ∈ res.1.knownCharacters)) := by
        intro res hres hout
        refine ⟨?_, ?_, ?_, ?_, ?_⟩
        · rw [hres]
          exact ih1
        · intro k hkk
          rw [hres]
          exact ih2 k ((mem_markChar k cid c.id st).mpr (Or.inr hkk))
        · intro k hkk
          rw [hres] at hkk
          rcases ih3 k hkk with h | ⟨c', hc', h⟩
          · rcases (mem_markChar k cid c.id st).mp h with h' | h'
            · exact Or.inr ⟨c, List.mem_cons_self c rest, h'⟩
            · exact Or.inl h'
          · exact Or.inr ⟨c', List.mem_cons_of_mem c hc', h⟩
        · intro c' hc'
          rw [hres]
          rcases List.mem_cons.mp hc' with h | h
          · subst h
            exact hmark_in
          · exact ih4 c' h
        · intro q hq
          rcases hout q hq with h | h
          · subst h
            refine ⟨⟨c, List.mem_cons_self c rest, rfl⟩, ?_, ?_⟩
            · simpa [mkIntent] using hkm
            · rw [hres]
              simpa [mkIntent] using hmark_in
          · obtain ⟨⟨c', hc', hq'⟩, hfresh, hin⟩ := ih5 q h
            refine ⟨⟨c', List.mem_cons_of_mem c hc', hq'⟩, ?_, ?_⟩
            · intro hmem
              exact hfresh ((mem_markChar _ cid c.id st).mpr (Or.inr hmem))
            · rw [hres]
              exact hin
      by_cases hw : matchesWordFilter f title = false
      · have heq : checkNewChars f cid title (c :: rest) st
            = checkNewChars f cid title rest (markChar cid c.id st) := by
          rw [checkNewChars_cons, if_neg hne, if_pos hw]
        rw [heq]
        obtain ⟨g1, g2, g3, g4, g5⟩ :=
          hcommon (checkNewChars f cid title rest (markChar cid c.id st)) rfl
            (fun q hq => Or.inr hq)
        exact ⟨g1, g2, g3, g4, g5, ih6⟩
      · by_cases hm : matchesFilters f c = true
        · have heq : checkNewChars f cid title (c :: rest) st
              = ((checkNewChars f cid title rest (markChar cid c.id st)).1,
                 mkIntent cid c :: (checkNewChars f cid title rest (markChar cid c.id st)).2) := by
            rw [checkNewChars_cons, if_neg hne, if_neg hw, if_pos hm]
          rw [heq]
          obtain ⟨g1, g2, g3, g4, g5⟩ :=
            hcommon ((checkNewChars f cid title rest (markChar cid c.id st)).1,
              mkIntent cid c :: (checkNewChars f cid title rest (markChar cid c.id st)).2)
              rfl (fun q hq => List.mem_cons.mp hq)
          refine ⟨g1, g2, g3, g4, g5, ?_⟩
          simp only [intentKeys, List.map_cons]
          rw [List.nodup_cons]
          refine ⟨?_, ih6⟩
          intro hmem
          simp only [List.mem_map] at hmem
          obtain ⟨q, hq, hkey⟩ := hmem
          obtain ⟨_, hfresh, _⟩ := ih5 q hq
          apply hfresh
          have hkey' : (q.CollectionID, q.CharacterID) = (cid, c.id) := by
            simpa [mkIntent] using hkey
          rw [hkey']
          exact (mem_markChar (cid, c.id) cid c.id st).mpr (Or.inl rfl)
        · have hm' : matchesFilters f c = false := by
            cases h : matchesFilters f c
            · rfl
            · exact absurd h hm
          have heq : checkNewChars f cid title (c :: rest) st
              = checkNewChars f cid title rest (markChar cid c.id st) := by
            rw [checkNewChars_cons, if_neg hne, if_neg hw, if_neg (by simp [hm'])]
          rw [heq]
          obtain ⟨g1, g2, g3, g4, g5⟩ :=
            hcommon (checkNewChars f cid title rest (markChar cid c.id st)) rfl
              (fun q hq => Or.inr hq)
          exact ⟨g1, g2, g3, g4, g5, ih6⟩

theorem checkNewChars_allKnown (f : SnipeFilter) (cid : Nat) (title : String) :
    ∀ (chars : List Character) (st : MonitorState),
      (∀ c, c ∈ chars → (cid, c.id) ∈ st.knownCharacters) →
      checkNewChars f cid title chars st = (st, []) := by
  intro chars
  induction chars with
  | nil =>
    intro st _
    exact checkNewChars_nil f cid title st
  | cons c rest ih =>
    intro st hall
    have hk : st.knownCharacters.contains (cid, c.id) = true := by
      simpa using hall c (List.mem_cons_self c rest)
    rw [checkNewChars_cons, if_pos hk]
    exact ih st fun c' hc' => hall c' (List.mem_cons_of_mem c hc')

theorem checkCollection_eq (f : SnipeFilter) (col : Collection) (st : MonitorState) :
    checkCollection f col st
      = if matchesWordFilter f col.title = false then (st, [])
        else checkCollectionChars f col.id col.characters st := rfl

theorem markCol_knownCharacters (cid : Nat) (st : MonitorState) :
    (markCol cid st).knownCharacters = st.knownCharacters := rfl

theorem markCol_knownCollections (cid : Nat) (st : MonitorState) :
    (markCol cid st).knownCollections = cid :: st.knownCollections := rfl

theorem collectionStep_spec (f : SnipeFilter) (col : Collection) (st : MonitorState)
    (h0 : charImpliesCol st) :
    charImpliesCol (collectionStep f col st).1 ∧
    (∀ k, k ∈ st.knownCharacters → k ∈ (collectionStep f col st).1.knownCharacters) ∧
    (∀ i, i ∈ st.knownCollections → i ∈ (collectionStep f col st).1.knownCollections) ∧
    (col.id ∈ (collectionStep f col st).1.knownCollections) ∧
    (∀ c, c ∈ col.characters → (col.id, c.id) ∈ (collectionStep f col st).1.knownCharacters) ∧
    (∀ q, q ∈ (collectionStep f col st).2 →
      (q.CollectionID, q.CharacterID) ∉ st.knownCharacters ∧
      (q.CollectionID, q.CharacterID) ∈ (collectionStep f col st).1.knownCharacters) ∧
    ((col.characters.map Character.id).Nodup →
      (intentKeys (collectionStep f col st).2).Nodup) := by
  by_cases hknown : st.knownCollections.contains col.id = true
  · -- already-known collection: only the new-character pass runs
    have hstep : collectionStep f col st
        = ((checkNewChars f col.id col.title col.characters st).1,
           (checkNewChars f col.id col.title col.characters st).2) := by
      unfold collectionStep
      dsimp only
      rw [if_pos hknown]
      simp
    obtain ⟨n1, n2, n3, n4, n5, n6⟩ := checkNewChars_spec f col.id col.title col.characters st
    have hcolmem : col.id ∈ st.knownCollections := by simpa using hknown
    rw [hstep]
    refine ⟨?_, n2, ?_, ?_, n4, ?_, fun _ => n6⟩
    · intro k hk
      rw [n1]
      rcases n3 k hk with h | ⟨c, _, hke⟩
      · exact h0 k h
      · rw [hke]
        exact hcolmem
    · intro i hi
      rw [n1]
      exact hi
    · rw [n1]
      exact hcolmem
    · intro q hq
      obtain ⟨_, hfresh, hin⟩ := n5 q hq
      exact ⟨hfresh, hin⟩
  · have hfresh_col : ∀ x, (col.id, x) ∉ st.knownCharacters := by
      intro x hx
      have := h0 (col.id, x) hx
      exact hknown (by simpa using this)
    have hcolnot : col.id ∉ st.knownCollections := by
      intro h
      exact hknown (by simpa using h)
    by_cases hw : matchesWordFilter f col.title = false
    · -- fresh collection whose title fails the word filter: checkCollection
      -- returns before marking, the new-character pass does all the marking
      have hcc : checkCollection f col (markCol col.id st) = (markCol col.id st, []) := by
        rw [checkCollection_eq, if_pos hw]
      have hstep : collectionStep f col st
          = ((checkNewChars f col.id col.title col.characters (markCol col.id st)).1,
             (checkNewChars f col.id col.title col.characters (markCol col.id st)).2) := by
        unfold collectionStep
        dsimp only
        rw [if_neg hknown, hcc]
        simp
      obtain ⟨n1, n2, n3, n4, n5, n6⟩ :=
        checkNewChars_spec f col.id col.title col.characters (markCol col.id st)
      rw [hstep]
      refine ⟨?_, ?_, ?_, ?_, n4, ?_, fun _ => n6⟩
      · intro k hk
        rw [n1, markCol_knownCollections]
        rcases n3 k hk with h | ⟨c, _, hke⟩
        · rw [markCol_knownCharacters] at h
          exact List.mem_cons_of_mem _ (h0 k h)
        · rw [hke]
          exact List.mem_cons_self _ _
      · intro k hk
        exact n2 k (by rwa [markCol_knownCharacters])
      · intro i hi
        rw [n1, markCol_knownCollections]
        exact List.mem_cons_of_mem _ hi
      · rw [n1, markCol_knownCollections]
        exact List.mem_cons_self _ _
      · intro q hq
        obtain ⟨_, hfresh, hin⟩ := n5 q hq
        rw [markCol_knownCharacters] at hfresh
        exact ⟨hfresh, hin⟩
    · -- fresh collection whose title passes: checkCollection marks and fires,
      -- then the new-character pass re-walks the detail
      have hcc : checkCollection f col (markCol col.id st)
          = checkCollectionChars f col.id col.characters (markCol col.id st) := by
        rw [checkCollection_eq, if_neg hw]
      have hstep : collectionStep f col st
          = ((checkNewChars f col.id col.title col.characters
                (checkCollectionChars f col.id col.characters (markCol col.id st)).1).1,
             (checkCollectionChars f col.id col.characters (markCol col.id st)).2 ++
             (checkNewChars f col.id col.title col.characters
                (checkCollectionChars f col.id col.characters (markCol col.id st)).1).2) := by
        unfold collectionStep
        dsimp only
        rw [if_neg hknown, hcc]
      obtain ⟨c1, c2, c3, c4, c5⟩ :=
        checkCollectionChars_spec f col.id col.characters (markCol col.id st)
      obtain ⟨n1, n2, n3, n4, n5, n6⟩ :=
        checkNewChars_spec f col.id col.title col.characters
          (checkCollectionChars f col.id col.characters (markCol col.id st)).1
      have hcols : (checkNewChars f col.id col.title col.characters
          (checkCollectionChars f col.id col.characters (markCol col.id st)).1).1.knownCollections
          = col.id :: st.knownCollections := by
        rw [n1, c1, markCol_knownCollections]
      rw [hstep]
      refine ⟨?_, ?_, ?_, ?_, n4, ?_, ?_⟩
      · intro k hk
        rw [hcols]
        rcases n3 k hk with h | ⟨c, _, hke⟩
        · rcases c3 k h with h' | ⟨c, _, hke⟩
          · rw [markCol_knownCharacters] at h'
            exact List.mem_cons_of_mem _ (h0 k h')
          · rw [hke]
            exact List.mem_cons_self _ _
        · rw [hke]
          exact List.mem_cons_self _ _
      · intro k hk
        exact n2 k (c2 k (by rwa [markCol_knownCharacters]))
      · intro i hi
        rw [hcols]
        exact List.mem_cons_of_mem _ hi
      · rw [hcols]
        exact List.mem_cons_self _ _
      · intro q hq
        rcases List.mem_append.mp hq with h | h
        · obtain ⟨c, hc, hqe⟩ := c5 q h
          subst hqe
          refine ⟨?_, ?_⟩
          · simpa [mkIntent] using hfresh_col c.id
          · exact n2 _ (by simpa [mkIntent] using c4 c hc)
        · obtain ⟨_, hfresh, hin⟩ := n5 q h
          refine ⟨?_, hin⟩
          intro hmem
          exact hfresh (c2 _ (by rwa [markCol_knownCharacters]))
      · intro hnd
        simp only [intentKeys, List.map_append]
        rw [List.nodup_append]
        refine ⟨checkCollectionChars_nodup f col.id col.characters (markCol col.id st) hnd,
          n6, ?_⟩
        intro a ha hb
        simp only [intentKeys, List.mem_map] at ha hb
        obtain ⟨q1, hq1, hk1⟩ := ha
        obtain ⟨q2, hq2, hk2⟩ := hb
        obtain ⟨c, hc, hqe⟩ := c5 q1 hq1
        obtain ⟨_, hfresh2, _⟩ := n5 q2 hq2
        apply hfresh2
        rw [hk2, ← hk1, hqe]
        exact (by simpa [mkIntent] using c4 c hc)

theorem processSnapshot_cons (f : SnipeFilter) (col : Collection) (rest : List Collection)
    (st : MonitorState) :
    processSnapshot f (col :: rest) st
      = ((processSnapshot f rest (collectionStep f col st).1).1,
         (collectionStep f col st).2 ++
           (processSnapshot f rest (collectionStep f col st).1).2) := rfl

theorem processSnapshot_spec (f : SnipeFilter) :
    ∀ (snap : List Collection) (st : MonitorState),
      charImpliesCol st →
      (∀ col, col ∈ snap → (col.characters.map Character.id).Nodup) →
      charImpliesCol (processSnapshot f snap st).1 ∧
      (∀ k, k ∈ st.knownCharacters → k ∈ (processSnapshot f snap st).1.knownCharacters) ∧
      (∀ i, i ∈ st.knownCollections → i ∈ (processSnapshot f snap st).1.knownCollections) ∧
      (∀ col, col ∈ snap → col.id ∈ (processSnapshot f snap st).1.knownCollections ∧
        ∀ c, c ∈ col.characters →
          (col.id, c.id) ∈ (processSnapshot f snap st).1.knownCharacters) ∧
      (∀ q, q ∈ (processSnapshot f snap st).2 →
        (q.CollectionID, q.CharacterID) ∉ st.knownCharacters ∧
        (q.CollectionID, q.CharacterID) ∈ (processSnapshot f snap st).1.knownCharacters) ∧
      (intentKeys (processSnapshot f snap st).2).Nodup := by
  intro snap
  induction snap with
  | nil =>
    intro st h0 _
    rw [show processSnapshot f [] st = (st, []) from rfl]
    exact ⟨h0, fun k hk => hk, fun i hi => hi,
      fun col hc => absurd hc (by simp), fun q hq => absurd hq (by simp),
      by simp [intentKeys]⟩
  | cons col rest ih =>
    intro st h0 hnd
    obtain ⟨s1, s2, s3, s4, s5, s6, s7⟩ := collectionStep_spec f col st h0
    obtain ⟨p1, p2, p3, p4, p5, p6⟩ := ih (collectionStep f col st).1 s1
      (fun col' hc' => hnd col' (List.mem_cons_of_mem col hc'))
    rw [processSnapshot_cons]
    refine ⟨p1, ?_, ?_, ?_, ?_, ?_⟩
    · intro k hk
      exact p2 k (s2 k hk)
    · intro i hi
      exact p3 i (s3 i hi)
    · intro col' hcol'
      rcases List.mem_cons.mp hcol' with h | h
      · subst h
        exact ⟨p3 _ s4, fun c hc => p2 _ (s5 c hc)⟩
      · exact p4 col' h
    · intro q hq
      rcases List.mem_append.mp hq with h | h
      · obtain ⟨hfresh, hin⟩ := s6 q h
        exact ⟨hfresh, p2 _ hin⟩
      · obtain ⟨hfresh, hin⟩ := p5 q h
        exact ⟨fun hmem => hfresh (s2 _ hmem), hin⟩
    · simp only [intentKeys, List.map_append]
      rw [List.nodup_append]
      refine ⟨s7 (hnd col (List.mem_cons_self col rest)), p6, ?_⟩
      intro a ha hb
      simp only [List.mem_map] at ha hb
      obtain ⟨q1, hq1, hk1⟩ := ha
      obtain ⟨q2, hq2, hk2⟩ := hb
      obtain ⟨hf2, _⟩ := p5 q2 hq2
      apply hf2
      rw [hk2, ← hk1]
      exact (s6 q1 hq1).2

theorem collectionStep_allKnown (f : SnipeFilter) (col : Collection) (st : MonitorState)
    (hcol : col.id ∈ st.knownCollections)
    (hchars : ∀ c, c ∈ col.characters → (col.id, c.id) ∈ st.knownCharacters) :
    collectionStep f col st = (st, []) := by
  have hk : st.knownCollections.contains col.id = true := by simpa using hcol
  unfold collectionStep
  dsimp only
  rw [if_pos hk]
  dsimp only
  rw [checkNewChars_allKnown f col.id col.title col.characters st hchars]
  simp

theorem processSnapshot_allKnown (f : SnipeFilter) :
    ∀ (snap : List Collection) (st : MonitorState),
      allKnown snap st → processSnapshot f snap st = (st, []) := by
  intro snap
  induction snap with
  | nil =>
    intro st _
    rfl
  | cons col rest ih =>
    intro st hall
    have hstep := collectionStep_allKnown f col st
      (hall.1 col (List.mem_cons_self col rest))
      (fun c hc => hall.2 col (List.mem_cons_self col rest) c hc)
    rw [processSnapshot_cons, hstep]
    dsimp only
    rw [ih st ⟨fun col' hc' => hall.1 col' (List.mem_cons_of_mem col hc'),
      fun col' hc' => hall.2 col' (List.mem_cons_of_mem col hc')⟩]
    simp

theorem foldl_markChar_spec (cid : Nat) :
    ∀ (chars : List Character) (st : MonitorState),
      (chars.foldl (fun s c => markChar cid c.id s) st).knownCollections
          = st.knownCollections ∧
      (∀ k, k ∈ st.knownCharacters →
        k ∈ (chars.foldl (fun s c => markChar cid c.id s) st).knownCharacters) ∧
      (∀ k, k ∈ (chars.foldl (fun s c => markChar cid c.id s) st).knownCharacters →
        k ∈ st.knownCharacters ∨ ∃ c, c ∈ chars ∧ k = (cid, c.id)) ∧
      (∀ c, c ∈ chars →
        (cid, c.id) ∈ (chars.foldl (fun s c => markChar cid c.id s) st).knownCharacters) := by
  intro chars
  induction chars with
  | nil =>
    intro st
    exact ⟨rfl, fun k hk => hk, fun k hk => Or.inl hk, fun c hc => absurd hc (by simp)⟩
  | cons c rest ih =>
    intro st
    obtain ⟨i1, i2, i3, i4⟩ := ih (markChar cid c.id st)
    rw [show (c :: rest).foldl (fun s c => markChar cid c.id s) st
        = rest.foldl (fun s c => markChar cid c.id s) (markChar cid c.id st) from rfl]
    refine ⟨?_, ?_, ?_, ?_⟩
    · rw [i1]
      rfl
    · intro k hk
      exact i2 k ((mem_markChar k cid c.id st).mpr (Or.inr hk))
    · intro k hk
      rcases i3 k hk with h | ⟨c', hc', hke⟩
      · rcases (mem_markChar k cid c.id st).mp h with h' | h'
        · exact Or.inr ⟨c, List.mem_cons_self c rest, h'⟩
        · exact Or.inl h'
      · exact Or.inr ⟨c', List.mem_cons_of_mem c hc', hke⟩
    · intro c' hc'
      rcases List.mem_cons.mp hc' with h | h
      · subst h
        exact i2 _ ((mem_markChar _ cid c'.id st).mpr (Or.inl rfl))
      · exact i4 c' h

theorem seedSnapshot_spec :
    ∀ (snap : List Collection) (st : MonitorState),
      (∀ k, k ∈ st.knownCharacters → k ∈ (seedSnapshot snap st).knownCharacters) ∧
      (∀ i, i ∈ st.knownCollections → i ∈ (seedSnapshot snap st).knownCollections) ∧
      (∀ col, col ∈ snap → col.id ∈ (seedSnapshot snap st).knownCollections ∧
        ∀ c, c ∈ col.characters → (col.id, c.id) ∈ (seedSnapshot snap st).knownCharacters) ∧
      (charImpliesCol st → charImpliesCol (seedSnapshot snap st)) := by
  intro snap
  induction snap with
  | nil =>
    intro st
    exact ⟨fun k hk => hk, fun i hi => hi, fun col hc => absurd hc (by simp), fun h => h⟩
  | cons col rest ih =>
    intro st
    obtain ⟨f1, f2, f3, f4⟩ := foldl_markChar_spec col.id col.characters (markCol col.id st)
    obtain ⟨i1, i2, i3, i4⟩ :=
      ih (col.characters.foldl (fun s c => markChar col.id c.id s) (markCol col.id st))
    rw [show seedSnapshot (col :: rest) st
        = seedSnapshot rest
            (col.characters.foldl (fun s c => markChar col.id c.id s) (markCol col.id st))
      from rfl]
    refine ⟨?_, ?_, ?_, ?_⟩
    · intro k hk
      exact i1 k (f2 k hk)
    · intro i hi
      apply i2
      rw [f1, markCol_knownCollections]
      exact List.mem_cons_of_mem _ hi
    · intro col' hcol'
      rcases List.mem_cons.mp hcol' with h | h
      · subst h
        constructor
        · apply i2
          rw [f1, markCol_knownCollections]
          exact List.mem_cons_self _ _
        · intro c hc
          exact i1 _ (f4 c hc)
      · exact i3 col' h
    · intro hcc
      apply i4
      intro p hp
      rcases f3 p hp with h | ⟨c, _, hpe⟩
      · rw [f1, markCol_knownCollections]
        exact List.mem_cons_of_mem _ (hcc p h)
      · rw [f1, markCol_knownCollections, hpe]
        exact List.mem_cons_self _ _

theorem checkForNewItems_reinit (f : SnipeFilter) (snap : List Collection)
    (st : MonitorState) (h : st.knownCollections.isEmpty = true) :
    checkForNewItems f true snap st = (seedSnapshot snap st, []) := by
  unfold checkForNewItems
  rw [if_pos ⟨rfl, h⟩]

theorem checkForNewItems_notRefreshed (f : SnipeFilter) (snap : List Collection)
    (st : MonitorState) :
    checkForNewItems f false snap st = processSnapshot f snap st := by
  unfold checkForNewItems
  rw [if_neg]
  rintro ⟨h, _⟩
  exact Bool.noConfusion h

theorem checkForNewItems_spec (f : SnipeFilter) (refreshed : Bool) (snap : List Collection)
    (st : MonitorState) (h0 : charImpliesCol st)
    (hnd : ∀ col, col ∈ snap → (col.characters.map Character.id).Nodup) :
    charImpliesCol (checkForNewItems f refreshed snap st).1 ∧
    (∀ k, k ∈ st.knownCharacters →
      k ∈ (checkForNewItems f refreshed snap st).1.knownCharacters) ∧
    allKnown snap (checkForNewItems f refreshed snap st).1 ∧
    (∀ q, q ∈ (checkForNewItems f refreshed snap st).2 →
      (q.CollectionID, q.CharacterID) ∉ st.knownCharacters ∧
      (q.CollectionID, q.CharacterID) ∈ (checkForNewItems f refreshed snap st).1.knownCharacters) ∧
    (intentKeys (checkForNewItems f refreshed snap st).2).Nodup := by
  by_cases hre : refreshed = true ∧ st.knownCollections.isEmpty = true
  · obtain ⟨h1, h2⟩ := hre
    subst h1
    rw [checkForNewItems_reinit f snap st h2]
    obtain ⟨s1, s2, s3, s4⟩ := seedSnapshot_spec snap st
    refine ⟨s4 h0, s1, ⟨fun col hc => (s3 col hc).1, fun col hc => (s3 col hc).2⟩, ?_, ?_⟩
    · intro q hq
      exact absurd hq (by simp)
    · simp [intentKeys]
  · have heq : checkForNewItems f refreshed snap st = processSnapshot f snap st := by
      unfold checkForNewItems
      rw [if_neg hre]
    rw [heq]
    obtain ⟨p1, p2, p3, p4, p5, p6⟩ := processSnapshot_spec f snap st h0 hnd
    exact ⟨p1, p2, ⟨fun col hc => (p4 col hc).1, fun col hc => (p4 col hc).2⟩, p5, p6⟩

theorem monitorRun_spec (f : SnipeFilter) :
    ∀ (polls : List (Bool × List Collection)) (st : MonitorState),
      charImpliesCol st →
      (∀ p, p ∈ polls → ∀ col, col ∈ p.2 → (col.characters.map Character.id).Nodup) →
      charImpliesCol (monitorRun f polls st).1 ∧
      (∀ k, k ∈ st.knownCharacters → k ∈ (monitorRun f polls st).1.knownCharacters) ∧
      (∀ q, q ∈ (monitorRun f polls st).2 →
        (q.CollectionID, q.CharacterID) ∉ st.knownCharacters ∧
        (q.CollectionID, q.CharacterID) ∈ (monitorRun f polls st).1.knownCharacters) ∧
      (intentKeys (monitorRun f polls st).2).Nodup := by
  intro polls
  induction polls with
  | nil =>
    intro st h0 _
    exact ⟨h0, fun k hk => hk, fun q hq => absurd hq (by simp [monitorRun]),
      by simp [monitorRun, intentKeys]⟩
  | cons p rest ih =>
    intro st h0 hnd
    obtain ⟨refreshed, snap⟩ := p
    obtain ⟨c1, c2, c3, c4, c5⟩ := checkForNewItems_spec f refreshed snap st h0
      (fun col hc => hnd (refreshed, snap) (List.mem_cons_self _ _) col hc)
    obtain ⟨m1, m2, m3, m4⟩ := ih (checkForNewItems f refreshed snap st).1 c1
      (fun p' hp' col hc => hnd p' (List.mem_cons_of_mem _ hp') col hc)
    rw [show monitorRun f ((refreshed, snap) :: rest) st
        = ((monitorRun f rest (checkForNewItems f refreshed snap st).1).1,
           (checkForNewItems f refreshed snap st).2 ++
           (monitorRun f rest (checkForNewItems f refreshed snap st).1).2) from rfl]
    refine ⟨m1, ?_, ?_, ?_⟩
    · intro k hk
      exact m2 k (c2 k hk)
    · intro q hq
      rcases List.mem_append.mp hq with h | h
      · obtain ⟨hf, hi⟩ := c4 q h
        exact ⟨hf, m2 _ hi⟩
      · obtain ⟨hf, hi⟩ := m3 q h
        exact ⟨fun hmem => hf (c2 _ hmem), hi⟩
    · simp only [intentKeys, List.map_append]
      rw [List.nodup_append]
      refine ⟨c5, m4, ?_⟩
      intro a ha hb
      simp only [List.mem_map] at ha hb
      obtain ⟨q1, hq1, hk1⟩ := ha
      obtain ⟨q2, hq2, hk2⟩ := hb
      obtain ⟨hf2, _⟩ := m3 q2 hq2
      apply hf2
      rw [hk2, ← hk1]
      exact (c4 q1 hq1).2

/-- C6 counterexample.  A brand-new collection whose detail list carries the
same character id twice: `checkCollection` (snipe_monitor.go lines 300–329)
marks and fires per list entry without consulting the known set, so the
single sub-item key `(1, 7)` raises two purchase intents in one poll cycle —
refuting "a given sub-item id raises at most one purchase intent over the
whole run" as universally stated. -/
theorem snipeDedupCounterexample :
    intentKeys (checkForNewItems
        { wordFilter := [], supplyRange := none, priceRange := none } false
        [{ id := 1, title := "t",
           characters := [{ id := 7, name := "a", price := 5, supply := 5 },
                          { id := 7, name := "a", price := 5, supply := 5 }] }]
        emptyMonitorState).2 = [(1, 7), (1, 7)] ∧
    ¬ (intentKeys (checkForNewItems
        { wordFilter := [], supplyRange := none, priceRange := none } false
        [{ id := 1, title := "t",
           characters := [{ id := 7, name := "a", price := 5, supply := 5 },
                          { id := 7, name := "a", price := 5, supply := 5 }] }]
        emptyMonitorState).2).Nodup := by
  constructor
  · rfl
  · decide

/-- C6 (amended): provided no catalog detail list carries the same character
id twice, a sub-item key `(collectionId, characterId)` raises at most one
purchase intent over a whole monitored run (the run's intent keys are
pairwise distinct); re-feeding an already-processed snapshot raises zero
additional intents; and after any poll cycle every sub-item id of the
snapshot — including ids rejected by the filters — is in the known set.  The
no-duplicate proviso is forced by the counterexample: the new-collection
path marks-and-fires per occurrence without a known-set check, while the
new-character path marks each id in the same pass, before filter
evaluation, and never fires twice. -/
theorem snipeDedup (f : SnipeFilter) (polls : List (Bool × List Collection))
    (st0 : MonitorState) (h0 : charImpliesCol st0)
    (hnodup : ∀ p, p ∈ polls → ∀ col, col ∈ p.2 →
      (col.characters.map Character.id).Nodup) :
    (intentKeys (monitorRun f polls st0).2).Nodup ∧
    (∀ (snap : List Collection) (st : MonitorState),
      charImpliesCol st →
      (∀ col, col ∈ snap → (col.characters.map Character.id).Nodup) →
      (checkForNewItems f false snap ((checkForNewItems f false snap st).1)).2 = []) ∧
    (∀ (snap : List Collection) (refreshed : Bool) (st : MonitorState),
      charImpliesCol st →
      (∀ col, col ∈ snap → (col.characters.map Character.id).Nodup) →
      allKnown snap (checkForNewItems f refreshed snap st).1) := by
  refine ⟨(monitorRun_spec f polls st0 h0 hnodup).2.2.2, ?_, ?_⟩
  · intro snap st hst hnd
    have hall := (checkForNewItems_spec f false snap st hst hnd).2.2.1
    rw [checkForNewItems_notRefreshed, processSnapshot_allKnown f snap _ hall]
  · intro snap refreshed st hst hnd
    exact (checkForNewItems_spec f refreshed snap st hst hnd).2.2.1

/-- Witness for C6's amended theorem: a two-cycle run feeding the same
single-collection snapshot twice raises pairwise-distinct intent keys. -/
theorem snipeDedupWitness :
    (intentKeys (monitorRun { wordFilter := [], supplyRange := none, priceRange := none }
        [(false, [{ id := 1, title := "t",
                    characters := [{ id := 7, name := "a", price := 5, supply := 5 }] }]),
         (false, [{ id := 1, title := "t",
                    characters := [{ id := 7, name := "a", price := 5, supply := 5 }] }])]
        emptyMonitorState).2).Nodup :=
  (snipeDedup { wordFilter := [], supplyRange := none, priceRange := none }
      [(false, [{ id := 1, title := "t",
                  characters := [{ id := 7, name := "a", price := 5, supply := 5 }] }]),
       (false, [{ id := 1, title := "t",
                  characters := [{ id := 7, name := "a", price := 5, supply := 5 }] }])]
      emptyMonitorState (fun p hp => absurd hp (List.not_mem_nil p)) (by decide)).1

/-- C7: `initializeState` (snipe_monitor.go lines 124–177) records every
collection id and every character key of the fetched catalog as known and
raises zero purchase intents, even for items that would match every
configured filter. -/
theorem seedWithoutFire (snap : List Collection) :
    (initializeState snap emptyMonitorState).2 = [] ∧
    (∀ col, col ∈ snap →
      col.id ∈ (initializeState snap emptyMonitorState).1.knownCollections) ∧
    (∀ col, col ∈ snap → ∀ c, c ∈ col.characters →
      (col.id, c.id) ∈ (initializeState snap emptyMonitorState).1.knownCharacters) := by
  obtain ⟨_, _, s3, _⟩ := seedSnapshot_spec snap emptyMonitorState
  exact ⟨rfl, fun col hc => (s3 col hc).1, fun col hc => (s3 col hc).2⟩

/-- Witness for C7 at a one-collection catalog. -/
theorem seedWithoutFireWitness :
    (initializeState
      [{ id := 3, title := "s",
         characters := [{ id := 9, name := "n", price := 1, supply := 1 }] }]
      emptyMonitorState).2 = [] ∧
    3 ∈ (initializeState
      [{ id := 3, title := "s",
         characters := [{ id := 9, name := "n", price := 1, supply := 1 }] }]
      emptyMonitorState).1.knownCollections ∧
    (3, 9) ∈ (initializeState
      [{ id := 3, title := "s",
         characters := [{ id := 9, name := "n", price := 1, supply := 1 }] }]
      emptyMonitorState).1.knownCharacters :=
  ⟨(seedWithoutFire
      [{ id := 3, title := "s",
         characters := [{ id := 9, name := "n", price := 1, supply := 1 }] }]).1,
   (seedWithoutFire
      [{ id := 3, title := "s",
         characters := [{ id := 9, name := "n", price := 1, supply := 1 }] }]).2.1
     { id := 3, title := "s",
       characters := [{ id := 9, name := "n", price := 1, supply := 1 }] } (by simp),
   (seedWithoutFire
      [{ id := 3, title := "s",
         characters := [{ id := 9, name := "n", price := 1, supply := 1 }] }]).2.2
     { id := 3, title := "s",
       characters := [{ id := 9, name := "n", price := 1, supply := 1 }] } (by simp)
     { id := 9, name := "n", price := 1, supply := 1 } (by simp)⟩

end TelegramMinter
